import Mathlib

/-!
Shallow embedding of the chainblocker durable queue engine, translated from
src/chainblocker/init and src/chainblocker/main of the repository.

Modelling conventions: timestamps are integers (seconds); the persisted sqlite
store is a record of lists of rows; the net effect of a sequence of ORM
mutations followed by commits is a function from Store to Store; the remote
twitter client is a function from an account id to an outcome.  Fallible
operations return Option.
-/

set_option autoImplicit false

/-- One row of the history table (class BlockHistory): the audit record of one
batch operation, with its skip counters. -/
structure BlockHistory where
  id : Nat
  session : Nat
  user_id : Nat
  screen_name : String
  followers : Nat
  following : Nat
  mode : String
  affect_target : Bool
  affect_followers : Bool
  affect_followed : Bool
  time : Int
  queued : Nat
  skipped_blocked : Nat
  skipped_queued : Nat
  skipped_following : Nat
  comment : String
  deriving DecidableEq, Repr

/-- One row of the blocked_accounts table (class BlockList): an account
currently believed blocked.  block_time, reason_id and session are nullable
columns (rows imported by update_blocklist leave them null). -/
structure BlockListEntry where
  user_id : Nat
  block_time : Option Int
  reason : Nat
  reason_id : Option Nat
  session : Option Nat
  deriving DecidableEq, Repr

/-- One row of the block_queue table (class BlockQueue): a pending block.
queued_at doubles as the earliest-eligible-for-processing time. -/
structure BlockQueueEntry where
  user_id : Nat
  queued_at : Int
  reason : Nat
  reason_id : Option Nat
  session : Option Nat
  deriving DecidableEq, Repr

/-- One row of the unblock_queue table (class UnblockQueue): a pending
unblock. -/
structure UnblockQueueEntry where
  user_id : Nat
  queued_at : Int
  reason : Nat
  reason_id : Option Nat
  session : Option Nat
  deriving DecidableEq, Repr

/-- The committed state of the sqlite store.  nextId models the autoincrement
primary key of the history table (assigned when a pending row is flushed). -/
structure Store where
  metadata : List (String × String)
  history : List BlockHistory
  blockList : List BlockListEntry
  blockQueue : List BlockQueueEntry
  unblockQueue : List UnblockQueueEntry
  nextId : Nat
  deriving DecidableEq, Repr

def emptyStore : Store := ⟨[], [], [], [], [], 0⟩

/-- Value of Metadata.get_row(key, db_session, default_val).val: the val column
of the row with the matching key, or the default for a freshly created row. -/
def metadata_get_row_val (store : Store) (key default_val : String) : String :=
  match store.metadata.find? (fun kv => kv.1 == key) with
  | some kv => kv.2
  | none => default_val

/-- A python value as compared by the maintenance gate in main: either a str,
or a Metadata row object returned by Metadata.get_row. -/
inductive PyVal where
  | str (s : String)
  | metadataRow (key val : String)
  deriving DecidableEq, Repr

/-- Python equality for the comparison performed in main.  The Metadata class
defines no custom eq, so comparing a row object against a str falls back to
the default identity comparison, which is false between values of distinct
types; str against str compares contents. -/
def pyEq : PyVal → PyVal → Bool
  | PyVal.str a, PyVal.str b => a == b
  | _, _ => false

/-- The maintenance gate of main (line 185 of main): the condition
Metadata.get_row("clean_exit", db_session, "1") == "0".  The left operand is
the row object itself, not its val column. -/
def clean_exit_condition (store : Store) : Bool :=
  pyEq (PyVal.metadataRow "clean_exit" (metadata_get_row_val store "clean_exit" "1"))
    (PyVal.str "0")

/-- A store whose previous run exited uncleanly: the persisted clean_exit flag
holds the string "0". -/
def dirtyStore : Store := { emptyStore with metadata := [("clean_exit", "0")] }

/-- C1: the claim says that whenever a run starts with the clean_exit metadata
value "0", the maintenance pass executes before new work.  In the code the
gate compares the Metadata row object (not its val column) to the string "0",
which is always false, so the maintenance branch is never taken: even on
dirtyStore, whose clean_exit value is "0", the condition evaluates to false,
and it is false on every store. -/
theorem C1_clean_exit_gate_never_fires :
    clean_exit_condition dirtyStore = false ∧
    metadata_get_row_val dirtyStore "clean_exit" "1" = "0" ∧
    ∀ s : Store, clean_exit_condition s = false :=
  ⟨rfl, rfl, fun _ => rfl⟩

/-- Registry membership test used by the dedup gate: the exists() query on
BlockList filtered by user_id. -/
def registryHas (store : Store) (uid : Nat) : Bool :=
  store.blockList.any (fun r => r.user_id == uid)

/-- Block queue membership test used by the dedup gate: the exists() query on
BlockQueue filtered by user_id. -/
def blockQueueHas (store : Store) (uid : Nat) : Bool :=
  store.blockQueue.any (fun q => q.user_id == uid)

/-- The whitelist test of the dedup gate: python truthiness of the list
followed by membership (an empty or absent whitelist never matches). -/
def whitelistHit (wl : List Nat) (uid : Nat) : Bool :=
  !wl.isEmpty && wl.contains uid

/-- Result of one dedup gate call: the optionally created row, the numeric
tag returned as the second tuple component by enqueue_block (1 = already in
registry, 2 = already queued, 3 = whitelisted, 0 = row created), and the
updated in-memory history object. -/
structure GateResult where
  entry : Option BlockQueueEntry
  tag : Nat
  hist : BlockHistory
  deriving DecidableEq, Repr

/-- Embedding of enqueue_block: check registry, then block queue, then
whitelist, each incrementing one counter of the history object; otherwise
build a BlockQueue row stamped with the current time.  The store is only
read; persistence of the returned row is left to the caller. -/
def enqueue_block (user_id : Nat) (store : Store) (history_object : BlockHistory)
    (reason : Nat) (reason_id : Option Nat) (whitelisted_accounts : List Nat)
    (now : Int) : GateResult :=
  if registryHas store user_id then
    ⟨none, 1, { history_object with skipped_blocked := history_object.skipped_blocked + 1 }⟩
  else if blockQueueHas store user_id then
    ⟨none, 2, { history_object with skipped_queued := history_object.skipped_queued + 1 }⟩
  else if whitelistHit whitelisted_accounts user_id then
    ⟨none, 3, { history_object with skipped_following := history_object.skipped_following + 1 }⟩
  else
    ⟨some ⟨user_id, now, reason, reason_id, some history_object.session⟩, 0,
      { history_object with queued := history_object.queued + 1 }⟩

/-- Sum of the four counters of a session record. -/
def counterTotal (h : BlockHistory) : Nat :=
  h.queued + h.skipped_blocked + h.skipped_queued + h.skipped_following

/-- C8: the dedup gate evaluates its checks in the fixed order registry,
queue, whitelist; an id in the registry is skipped with tag 1 whatever the
queue and whitelist say, an id in the block queue is skipped with tag 2 even
if whitelisted, otherwise a fresh row stamped with the current time is
returned with tag 0; exactly one session counter is incremented per call, and
the gate performs no store mutation (it only reads the store and returns the
row to be persisted by the caller). -/
theorem C8_dedup_gate_fixed_order (uid : Nat) (store : Store) (h : BlockHistory)
    (reason : Nat) (reason_id : Option Nat) (wl : List Nat) (now : Int) :
    (registryHas store uid = true →
      enqueue_block uid store h reason reason_id wl now =
        ⟨none, 1, { h with skipped_blocked := h.skipped_blocked + 1 }⟩) ∧
    (registryHas store uid = false → blockQueueHas store uid = true →
      enqueue_block uid store h reason reason_id wl now =
        ⟨none, 2, { h with skipped_queued := h.skipped_queued + 1 }⟩) ∧
    (registryHas store uid = false → blockQueueHas store uid = false →
      whitelistHit wl uid = true →
      enqueue_block uid store h reason reason_id wl now =
        ⟨none, 3, { h with skipped_following := h.skipped_following + 1 }⟩) ∧
    (registryHas store uid = false → blockQueueHas store uid = false →
      whitelistHit wl uid = false →
      enqueue_block uid store h reason reason_id wl now =
        ⟨some ⟨uid, now, reason, reason_id, some h.session⟩, 0,
          { h with queued := h.queued + 1 }⟩) ∧
    counterTotal (enqueue_block uid store h reason reason_id wl now).hist =
      counterTotal h + 1 := by
  refine ⟨?_, ?_, ?_, ?_, ?_⟩
  · intro h1; simp [enqueue_block, h1]
  · intro h1 h2; simp [enqueue_block, h1, h2]
  · intro h1 h2 h3; simp [enqueue_block, h1, h2, h3]
  · intro h1 h2 h3; simp [enqueue_block, h1, h2, h3]
  · by_cases h1 : registryHas store uid <;>
      by_cases h2 : blockQueueHas store uid <;>
      by_cases h3 : whitelistHit wl uid <;>
      simp [enqueue_block, h1, h2, h3, counterTotal] <;> omega

def c8Store : Store := { emptyStore with
  blockList := [⟨5, some 0, 0, none, none⟩],
  blockQueue := [⟨5, 0, 2, some 9, some 1⟩] }

def c8Hist : BlockHistory := ⟨0, 1, 9, "t", 0, 0, "block", true, true, false, 0, 0, 0, 0, 0, ""⟩

/-- C8 witness: account 5 is in the registry, in the block queue and in the
whitelist at once; the gate skips it with tag 1 and only the registry skip
counter is incremented. -/
theorem C8_dedup_gate_fixed_order_witness :
    enqueue_block 5 c8Store c8Hist 2 (some 9) [5] 3 =
      ⟨none, 1, { c8Hist with skipped_blocked := c8Hist.skipped_blocked + 1 }⟩ :=
  (C8_dedup_gate_fixed_order 5 c8Store c8Hist 2 (some 9) [5] 3).1 (by decide)

def c5Hist : BlockHistory := ⟨0, 1, 9, "t", 0, 0, "block", true, true, false, 0, 0, 0, 0, 0, ""⟩

/-- C5 counterexample: two successive gate calls with identical arguments and
no commit of the first returned row in between.  The second call queries the
same committed store, does not see the uncommitted first row, and returns tag
0 with a fresh duplicate row and an unchanged skipped_queued counter, not the
claimed tag 2 already-queued skip. -/
theorem C5_counterexample :
    (enqueue_block 5 emptyStore
        (enqueue_block 5 emptyStore c5Hist 2 (some 9) [] 100).hist
        2 (some 9) [] 100).tag = 0 ∧
    (enqueue_block 5 emptyStore
        (enqueue_block 5 emptyStore c5Hist 2 (some 9) [] 100).hist
        2 (some 9) [] 100).entry =
      some ⟨5, 100, 2, some 9, some 1⟩ ∧
    (enqueue_block 5 emptyStore
        (enqueue_block 5 emptyStore c5Hist 2 (some 9) [] 100).hist
        2 (some 9) [] 100).hist.skipped_queued = c5Hist.skipped_queued := by
  decide

/-- The commit the caller performs on a gate-created row: add it to the block
queue and commit. -/
def commitEntry (store : Store) (e : BlockQueueEntry) : Store :=
  { store with blockQueue := store.blockQueue ++ [e] }

/-- C5 amended: the gate is only idempotent across a commit.  If the first
call creates a row and that row is committed to the store, a second call with
identical arguments is skipped with tag 2 and increments skipped_queued. -/
theorem C5_amended_idempotent_after_commit (uid : Nat) (store : Store)
    (h : BlockHistory) (reason : Nat) (reason_id : Option Nat) (wl : List Nat)
    (now now2 : Int) (e : BlockQueueEntry)
    (hfirst : (enqueue_block uid store h reason reason_id wl now).entry = some e) :
    enqueue_block uid (commitEntry store e)
        (enqueue_block uid store h reason reason_id wl now).hist
        reason reason_id wl now2 =
      ⟨none, 2,
        { (enqueue_block uid store h reason reason_id wl now).hist with
            skipped_queued :=
              (enqueue_block uid store h reason reason_id wl now).hist.skipped_queued + 1 }⟩ := by
  by_cases h1 : registryHas store uid
  · simp [enqueue_block, h1] at hfirst
  · by_cases h2 : blockQueueHas store uid
    · simp [enqueue_block, h1, h2] at hfirst
    · by_cases h3 : whitelistHit wl uid
      · simp [enqueue_block, h1, h2, h3] at hfirst
      · have he : e = ⟨uid, now, reason, reason_id, some h.session⟩ := by
          simp [enqueue_block, h1, h2, h3] at hfirst
          exact hfirst.symm
        have hreg2 : registryHas (commitEntry store e) uid = false := by
          simpa using h1
        have hq2 : blockQueueHas (commitEntry store e) uid = true := by
          simp [blockQueueHas, commitEntry, List.any_append, he]
        simp [enqueue_block, hreg2, hq2]

def c5CommitStore : Store :=
  commitEntry emptyStore ⟨5, 100, 2, some 9, some 1⟩

/-- C5 witness: committing the row created by the first call makes the second
identical call return the already-queued skip. -/
theorem C5_amended_idempotent_after_commit_witness :
    enqueue_block 5 c5CommitStore
        (enqueue_block 5 emptyStore c5Hist 2 (some 9) [] 100).hist
        2 (some 9) [] 100 =
      ⟨none, 2,
        { (enqueue_block 5 emptyStore c5Hist 2 (some 9) [] 100).hist with
            skipped_queued :=
              (enqueue_block 5 emptyStore c5Hist 2 (some 9) [] 100).hist.skipped_queued + 1 }⟩ :=
  C5_amended_idempotent_after_commit 5 emptyStore c5Hist 2 (some 9) [] 100 100
    ⟨5, 100, 2, some 9, some 1⟩ (by decide)

/-- C2 amended part: what the gate actually enforces.  An id already in the
block queue itself (and not in the registry) is skipped with tag 2, and the
gate result is entirely independent of the unblock queue, so presence in the
opposing queue is never detected. -/
theorem C2_amended_gate_same_queue_only (uid : Nat) (store : Store)
    (h : BlockHistory) (reason : Nat) (reason_id : Option Nat) (wl : List Nat)
    (now : Int) (hreg : registryHas store uid = false)
    (hq : blockQueueHas store uid = true) :
    enqueue_block uid store h reason reason_id wl now =
      ⟨none, 2, { h with skipped_queued := h.skipped_queued + 1 }⟩ ∧
    ∀ uq : List UnblockQueueEntry,
      enqueue_block uid { store with unblockQueue := uq } h reason reason_id wl now =
        enqueue_block uid store h reason reason_id wl now := by
  constructor
  · simp [enqueue_block, hreg, hq]
  · intro uq; rfl

def c2GateStore : Store := { emptyStore with
  blockQueue := [⟨5, 0, 2, some 9, some 1⟩],
  unblockQueue := [⟨5, 0, 2, some 9, some 1⟩] }

/-- C2 amended witness: account 5 sits in the block queue; the gate skips it
with tag 2, and replacing the unblock queue by anything does not change the
gate result. -/
theorem C2_amended_gate_same_queue_only_witness :
    enqueue_block 5 c2GateStore c8Hist 2 (some 9) [] 3 =
      ⟨none, 2, { c8Hist with skipped_queued := c8Hist.skipped_queued + 1 }⟩ ∧
    ∀ uq : List UnblockQueueEntry,
      enqueue_block 5 { c2GateStore with unblockQueue := uq } c8Hist 2 (some 9) [] 3 =
        enqueue_block 5 c2GateStore c8Hist 2 (some 9) [] 3 :=
  C2_amended_gate_same_queue_only 5 c2GateStore c8Hist 2 (some 9) [] 3
    (by decide) (by decide)

/-- Net effect of one page commit: add_all of the gate-created rows followed
by commit.  The primary key constraint on user_id is enforced by the store: a
duplicate id inside a single page (invisible to the gate, which only queries
committed rows) makes the commit fail with an integrity error, modelled as
none. -/
def commitQueueRows (store : Store) (rows : List BlockQueueEntry) : Option Store :=
  if (rows.map (fun e => e.user_id)).Nodup ∧
      ∀ e ∈ rows, blockQueueHas store e.user_id = false then
    some { store with blockQueue := store.blockQueue ++ rows }
  else none

/-- One enumeration page run through the gate: every id is checked against
the committed store (rows created earlier in the same page are not yet
persisted, so the checks cannot see them), accumulating the created rows and
threading the history object. -/
def gatePage (store : Store) (wl : List Nat) (reason : Nat) (reason_id : Option Nat)
    (now : Int) (hist : BlockHistory) (ids : List Nat) :
    List BlockQueueEntry × BlockHistory :=
  ids.foldl
    (fun acc uid =>
      let r := enqueue_block uid store acc.2 reason reason_id wl now
      match r.entry with
      | some e => (acc.1 ++ [e], r.hist)
      | none => (acc.1, r.hist))
    ([], hist)

/-- The per-page loop of queue_blocks_for over one relationship set: gate the
page against the store committed so far, then commit the page as one batch. -/
def runPages (wl : List Nat) (reason : Nat) (reason_id : Option Nat) (now : Int) :
    List (List Nat) → Store × BlockHistory → Option (Store × BlockHistory)
  | [], sh => some sh
  | page :: rest, sh =>
    match commitQueueRows sh.1 (gatePage sh.1 wl reason reason_id now sh.2 page).1 with
    | some s => runPages wl reason reason_id now rest
        (s, (gatePage sh.1 wl reason reason_id now sh.2 page).2)
    | none => none

/-- The block_target stage of queue_blocks_for: gate the target itself with
reason 1 and no reason id, and commit the row if one was created. -/
def qbTargetStep (target_id : Nat) (wl : List Nat) (now : Int) (block_target : Bool)
    (store : Store) (hist : BlockHistory) : Option (Store × BlockHistory) :=
  if block_target then
    match commitQueueRows store
        ((enqueue_block target_id store hist 1 none wl now).entry.toList) with
    | some s => some (s, (enqueue_block target_id store hist 1 none wl now).hist)
    | none =>
      if (enqueue_block target_id store hist 1 none wl now).entry.isSome then none
      else some (store, (enqueue_block target_id store hist 1 none wl now).hist)
  else some (store, hist)

/-- Result of queue_blocks_for: the committed store and the returned history
object. -/
structure QBRes where
  store : Store
  hist : BlockHistory
  deriving DecidableEq, Repr

/-- Embedding of queue_blocks_for: reject an all-false mode (RuntimeError,
modelled as none), create the session record, run the target stage and then
the follower and followed pages, and finally delete the session record if its
queued counter stayed at zero. -/
def queue_blocks_for (target_id : Nat) (target_name : String)
    (target_followers target_following : Nat)
    (followerPages followedPages : List (List Nat)) (followed_ids : List Nat)
    (session_id : Nat) (session_comment : String)
    (block_target block_followers block_followed : Bool) (now : Int)
    (store : Store) : Option QBRes :=
  if !(block_followers || block_target || block_followed) then none
  else
    (qbTargetStep target_id followed_ids now block_target store
        ⟨store.nextId, session_id, target_id, target_name, target_followers,
          target_following, "block", block_target, block_followers,
          block_followed, now, 0, 0, 0, 0, session_comment⟩).bind (fun sh1 =>
      (if block_followers then
          runPages followed_ids 2 (some target_id) now followerPages sh1
        else some sh1).bind (fun sh2 =>
        (if block_followed then
            runPages followed_ids 3 (some target_id) now followedPages sh2
          else some sh2).map (fun sh3 =>
          if sh3.2.queued == 0 then
            ⟨{ sh3.1 with nextId := sh3.1.nextId + 1 }, sh3.2⟩
          else
            ⟨{ sh3.1 with
                history := sh3.1.history ++ [sh3.2],
                nextId := sh3.1.nextId + 1 }, sh3.2⟩)))

/-- The sql filter string built from the requested unblock reasons, as a
predicate on a row: user_id equals the target when unblock_target, or reason
2 with the target as reason source when unblock_followers, or reason 3 with
the target as reason source when unblock_followed. -/
def ubMatches (target_id : Nat) (ut uf ufd : Bool) (reason : Nat)
    (reason_id : Option Nat) (uid : Nat) : Bool :=
  (ut && uid == target_id) ||
  (uf && reason == 2 && reason_id == some target_id) ||
  (ufd && reason == 3 && reason_id == some target_id)

/-- Result of queue_unblocks_for: the committed store, the session record as
left in memory, and the returned pair of counts. -/
structure UBRes where
  store : Store
  hist : BlockHistory
  cancelled : Nat
  matching : Nat
  deriving DecidableEq, Repr

/-- Embedding of queue_unblocks_for: an all-false mode builds the unparsable
filter string and raises from sqlite, modelled as none.  Otherwise the
session record is created (its autoincrement id is assigned at the first
query autoflush), matching rows are deleted from the block queue, and every
matching registry row is moved into the unblock queue.  The session record is
persisted by those commits whenever either count is positive; its queued
counter is never incremented and the record is never deleted. -/
def queue_unblocks_for (target_id : Nat) (target_name : String)
    (target_followers target_following : Nat) (session_id : Nat)
    (session_comment : String)
    (unblock_target unblock_followers unblock_followed : Bool) (now : Int)
    (store : Store) : Option UBRes :=
  if !(unblock_target || unblock_followers || unblock_followed) then none
  else
    let hist : BlockHistory :=
      ⟨store.nextId, session_id, target_id, target_name, target_followers,
        target_following, "unblock", unblock_target, unblock_followers,
        unblock_followed, now, 0, 0, 0, 0, session_comment⟩
    let matchQ : BlockQueueEntry → Bool := fun q =>
      ubMatches target_id unblock_target unblock_followers unblock_followed
        q.reason q.reason_id q.user_id
    let matchL : BlockListEntry → Bool := fun r =>
      ubMatches target_id unblock_target unblock_followers unblock_followed
        r.reason r.reason_id r.user_id
    let cancelled := (store.blockQueue.filter matchQ).length
    let matchingRows := store.blockList.filter matchL
    some ⟨{ store with
            blockQueue := store.blockQueue.filter (fun q => !(matchQ q)),
            blockList := store.blockList.filter (fun r => !(matchL r)),
            unblockQueue := store.unblockQueue ++ matchingRows.map (fun r =>
              (⟨r.user_id, now, r.reason, r.reason_id, some hist.id⟩ : UnblockQueueEntry)),
            history :=
              if cancelled > 0 || matchingRows.length > 0 then store.history ++ [hist]
              else store.history,
            nextId := store.nextId + 1 },
          hist, cancelled, matchingRows.length⟩

def c4UnblockStore : Store := { emptyStore with
  blockList := [⟨5, some 0, 2, some 9, some 1⟩], nextId := 3 }

/-- Check used by the C4 counterexample: the unblock builder returns normally
and its session record has queued = 0 yet sits in the persisted history. -/
def c4CexCheck : Bool :=
  match queue_unblocks_for 9 "t" 0 0 2 "c" false true false 30 c4UnblockStore with
  | some r => r.hist.queued == 0 && decide (r.hist ∈ r.store.history)
  | none => false

/-- C4 counterexample: an unblock session that queues one unblock returns
normally with its queued counter still at zero, yet its session record is
persisted in the store: the unblock builder never increments queued and never
discards the record, so a zero-queued session survives its builder. -/
theorem C4_counterexample : c4CexCheck = true := by decide

theorem commitQueueRows_history (s : Store) (rows : List BlockQueueEntry)
    (s' : Store) (h : commitQueueRows s rows = some s') : s'.history = s.history := by
  unfold commitQueueRows at h
  split at h
  · cases h; rfl
  · cases h

theorem qbTargetStep_history (target_id : Nat) (wl : List Nat) (now : Int)
    (bt : Bool) (store : Store) (hist : BlockHistory) (sh : Store × BlockHistory)
    (h : qbTargetStep target_id wl now bt store hist = some sh) :
    sh.1.history = store.history := by
  unfold qbTargetStep at h
  split at h
  · split at h
    · rename_i s hs
      cases h
      exact commitQueueRows_history _ _ _ hs
    · split at h
      · cases h
      · cases h; rfl
  · cases h; rfl

theorem runPages_history (wl : List Nat) (reason : Nat) (rid : Option Nat)
    (now : Int) (pages : List (List Nat)) :
    ∀ sh sh' : Store × BlockHistory,
      runPages wl reason rid now pages sh = some sh' → sh'.1.history = sh.1.history := by
  induction pages with
  | nil =>
    intro sh sh' h
    cases h
    rfl
  | cons page rest ih =>
    intro sh sh' h
    unfold runPages at h
    split at h
    · rename_i s hs
      rw [ih _ _ h]
      exact commitQueueRows_history _ _ _ hs
    · cases h

/-- C4 amended: the no-audit-trace rule holds for the block-mode builder
only.  If queue_blocks_for returns normally and the returned session record
has a zero queued counter, the persisted history is unchanged; when the
counter is positive the record is appended.  (The unblock-mode builder,
by the counterexample, persists its zero-queued session record.) -/
theorem C4_amended_block_noop_discarded (target_id : Nat) (target_name : String)
    (tf tg : Nat) (fp fdp : List (List Nat)) (wl : List Nat) (sid : Nat)
    (sc : String) (bt bf bfd : Bool) (now : Int) (store : Store) (res : QBRes)
    (hres : queue_blocks_for target_id target_name tf tg fp fdp wl sid sc
        bt bf bfd now store = some res) :
    (res.hist.queued = 0 → res.store.history = store.history) ∧
    (res.hist.queued ≠ 0 → res.store.history = store.history ++ [res.hist]) := by
  unfold queue_blocks_for at hres
  split at hres
  · cases hres
  · rcases Option.bind_eq_some.mp hres with ⟨sh1, h1, hres2⟩
    rcases Option.bind_eq_some.mp hres2 with ⟨sh2, h2, hres3⟩
    rcases Option.map_eq_some'.mp hres3 with ⟨sh3, h3, hres4⟩
    have e1 : sh1.1.history = store.history := qbTargetStep_history _ _ _ _ _ _ _ h1
    have e2 : sh2.1.history = sh1.1.history := by
      split at h2
      · exact runPages_history _ _ _ _ _ _ _ h2
      · cases h2; rfl
    have e3 : sh3.1.history = sh2.1.history := by
      split at h3
      · exact runPages_history _ _ _ _ _ _ _ h3
      · cases h3; rfl
    by_cases hq : sh3.2.queued = 0
    · have : res = ⟨{ sh3.1 with nextId := sh3.1.nextId + 1 }, sh3.2⟩ := by
        rw [← hres4]; simp [hq]
      subst this
      constructor
      · intro _
        simp [e3, e2, e1]
      · intro hne
        exact absurd hq hne
    · have : res = ⟨{ sh3.1 with
          history := sh3.1.history ++ [sh3.2],
          nextId := sh3.1.nextId + 1 }, sh3.2⟩ := by
        rw [← hres4]; simp [hq]
      subst this
      constructor
      · intro h0
        exact absurd h0 hq
      · intro _
        simp [e3, e2, e1]

def c4BlockStore : Store := { emptyStore with
  blockList := [⟨7, some 0, 1, none, some 1⟩] }

/-- C4 witness: a block-mode call whose only candidate is already registered
returns a zero-queued session record and leaves the persisted history
unchanged. -/
theorem C4_amended_block_noop_discarded_witness :
    (⟨{ c4BlockStore with nextId := 1 },
        ⟨0, 1, 7, "t", 0, 0, "block", true, false, false, 5, 0, 1, 0, 0, "c"⟩⟩ : QBRes).store.history =
      c4BlockStore.history :=
  (C4_amended_block_noop_discarded 7 "t" 0 0 [] [] [] 1 "c" true false false 5
      c4BlockStore _ (by decide)).1 (by decide)

/-- Outcome of the remote create_block call for one account id: success, a
twitter api error with a code, any other exception, or a user interrupt
arriving during the call. -/
inductive RemoteOutcome where
  | ok
  | errCode (c : Nat)
  | errOther
  | interrupt
  deriving DecidableEq, Repr

/-- Queue-processing state: the committed store, the running blocked_num
counter, and the snapshots of the store taken at each commit. -/
structure ProcState where
  store : Store
  blocked : Nat
  trace : List Store
  deriving DecidableEq, Repr

/-- A commit: record the mutated store as the newest committed snapshot. -/
def commitState (st : ProcState) : ProcState :=
  { st with trace := st.trace ++ [st.store] }

/-- Insertion into a list sorted by descending queued_at. -/
def insertDesc (e : BlockQueueEntry) : List BlockQueueEntry → List BlockQueueEntry
  | [] => [e]
  | x :: xs => if x.queued_at ≤ e.queued_at then e :: x :: xs else x :: insertDesc e xs

/-- Sort by descending queued_at: the order_by of the selection query. -/
def sortDesc : List BlockQueueEntry → List BlockQueueEntry
  | [] => []
  | x :: xs => insertDesc x (sortDesc xs)

/-- The selection query of process_block_queue: restrict to rows whose
queued_at is at or before the start time of the run, order by queued_at
descending, and limit to the batch size. -/
def selectBatch (q : List BlockQueueEntry) (time_start : Int) (batch_size : Nat) :
    List BlockQueueEntry :=
  (sortDesc (q.filter (fun e => decide (e.queued_at ≤ time_start)))).take batch_size

/-- Deletion of the queue row with the given account id (the primary key). -/
def deleteQueueRow (q : List BlockQueueEntry) (uid : Nat) : List BlockQueueEntry :=
  q.filter (fun e => !(e.user_id == uid))

/-- The code-63 reschedule: push queued_at of the row with the given account
id forward by 86400 seconds (one day). -/
def bumpQueueRow (q : List BlockQueueEntry) (uid : Nat) : List BlockQueueEntry :=
  q.map (fun e =>
    if e.user_id == uid then { e with queued_at := e.queued_at + 86400 } else e)

/-- Outcome of processing one selected batch: fall through to the next while
iteration, break out of the loop (keyboard interrupt), or propagate an
exception. -/
inductive BatchOut where
  | cont (st : ProcState)
  | stop (st : ProcState)
  | err (st : ProcState)
  deriving DecidableEq, Repr

/-- The state carried by a batch outcome. -/
def BatchOut.state : BatchOut → ProcState
  | BatchOut.cont st => st
  | BatchOut.stop st => st
  | BatchOut.err st => st

/-- The inner for loop of process_block_queue, processing the entries of one
selected batch in order: skip whitelisted ids without touching the store; on
success insert the registry row, delete the queue row, count, and commit both
together; on api code 50 delete the queue row, count, and commit; on api code
63 push the row a day forward and commit; propagate any other error;
a keyboard interrupt breaks out of the loop. -/
def processBatch (wl : List Nat) (remote : Nat → RemoteOutcome) (now : Int) :
    List BlockQueueEntry → ProcState → BatchOut
  | [], st => BatchOut.cont st
  | e :: rest, st =>
    if whitelistHit wl e.user_id then processBatch wl remote now rest st
    else
      match remote e.user_id with
      | RemoteOutcome.ok =>
        processBatch wl remote now rest (commitState
          { st with
            store := { st.store with
              blockList :=
                ⟨e.user_id, some now, e.reason, e.reason_id, e.session⟩ ::
                  st.store.blockList,
              blockQueue := deleteQueueRow st.store.blockQueue e.user_id },
            blocked := st.blocked + 1 })
      | RemoteOutcome.errCode c =>
        if c == 50 then
          processBatch wl remote now rest (commitState
            { st with
              store := { st.store with
                blockQueue := deleteQueueRow st.store.blockQueue e.user_id },
              blocked := st.blocked + 1 })
        else if c == 63 then
          processBatch wl remote now rest (commitState
            { st with
              store := { st.store with
                blockQueue := bumpQueueRow st.store.blockQueue e.user_id } })
        else BatchOut.err st
      | RemoteOutcome.errOther => BatchOut.err st
      | RemoteOutcome.interrupt => BatchOut.stop st

/-- Result of a queue-processing run: normal return, a propagated exception,
or still looping after the given number of while iterations (fuel). -/
inductive RunResult where
  | ok (st : ProcState)
  | err (st : ProcState)
  | fuelOut
  deriving DecidableEq, Repr

/-- The while loop of process_block_queue: reselect the batch, finish when it
is empty, otherwise process it and loop.  The fuel argument bounds the number
of while iterations so that the model is total; fuelOut reports that the loop
was still running when the fuel ran out. -/
def processLoop (wl : List Nat) (remote : Nat → RemoteOutcome) (now time_start : Int)
    (batch_size : Nat) : Nat → ProcState → RunResult
  | 0, _ => RunResult.fuelOut
  | fuel + 1, st =>
    match selectBatch st.store.blockQueue time_start batch_size with
    | [] => RunResult.ok st
    | e :: rest =>
      match processBatch wl remote now (e :: rest) st with
      | BatchOut.cont st2 => processLoop wl remote now time_start batch_size fuel st2
      | BatchOut.stop st2 => RunResult.ok st2
      | BatchOut.err st2 => RunResult.err st2

/-- Embedding of process_block_queue: return 0 at once when the block queue
has no rows at all, otherwise run the processing loop from a fresh state. -/
def process_block_queue (wl : List Nat) (remote : Nat → RemoteOutcome)
    (now time_start : Int) (batch_size fuel : Nat) (store : Store) : RunResult :=
  if store.blockQueue.isEmpty then RunResult.ok ⟨store, 0, []⟩
  else processLoop wl remote now time_start batch_size fuel ⟨store, 0, []⟩

def c3Store : Store := { emptyStore with blockQueue := [⟨7, 0, 1, none, some 1⟩] }

theorem c3_stuck_aux (fuel : Nat) :
    processLoop [7] (fun _ => RemoteOutcome.ok) 5 10 1 fuel ⟨c3Store, 0, []⟩ =
      RunResult.fuelOut := by
  induction fuel with
  | zero => rfl
  | succ n ih => exact ih

/-- C3 counterexample: a queue holding a single eligible entry whose account
id is whitelisted, with a positive batch size.  The entry is skipped without
being consumed, so every while iteration reselects the identical batch and
the run never terminates: no amount of fuel makes the loop return. -/
theorem C3_counterexample :
    ¬ ∃ fuel : Nat,
      process_block_queue [7] (fun _ => RemoteOutcome.ok) 5 10 1 fuel c3Store ≠
        RunResult.fuelOut := by
  rintro ⟨fuel, hne⟩
  exact hne (c3_stuck_aux fuel)

def c6Store : Store := { emptyStore with blockQueue := [⟨9, 172800, 2, some 3, some 1⟩] }

def c6Bumped : Store := { emptyStore with blockQueue := [⟨9, 259200, 2, some 3, some 1⟩] }

/-- C6 counterexample: the entry was enqueued at 172800, just under a day
before the run start 259199.  The code-63 reschedule sets queued_at to
259200 = 172800 + 86400, one second after the first run started, and the run
ends with the entry still queued; a second run started one second later, at
time 259200, selects the entry again, contradicting the claim that a
processing run started immediately afterwards does not select it. -/
theorem C6_counterexample :
    process_block_queue [] (fun _ => RemoteOutcome.errCode 63) 259199 259199 50 3 c6Store =
      RunResult.ok ⟨c6Bumped, 0, [c6Bumped]⟩ ∧
    selectBatch c6Bumped.blockQueue 259200 50 = [⟨9, 259200, 2, some 3, some 1⟩] := by
  decide

def c2Step1 : Option QBRes :=
  queue_blocks_for 5 "u" 0 0 [] [] [] 1 "c" true false false 10 emptyStore

def c2Store2 : Option Store :=
  c2Step1.bind (fun r =>
    match process_block_queue [] (fun _ => RemoteOutcome.ok) 20 20 50 3 r.store with
    | RunResult.ok st => some st.store
    | _ => none)

def c2Store3 : Option Store :=
  c2Store2.bind (fun s =>
    (queue_unblocks_for 5 "u" 0 0 2 "c" true false false 30 s).map (fun r => r.store))

def c2Store4 : Option Store :=
  c2Store3.bind (fun s =>
    (queue_blocks_for 5 "u" 0 0 [] [] [] 3 "c" true false false 40 s).map (fun r => r.store))

/-- Check used by the C2 counterexample: after the four core operations the
committed store holds account 5 in the block queue and in the unblock queue
at the same time. -/
def c2BothQueuesCheck : Bool :=
  match c2Store4 with
  | some s =>
    s.blockQueue.any (fun q => q.user_id == 5) &&
      s.unblockQueue.any (fun q => q.user_id == 5)
  | none => false

/-- C2 counterexample: starting from the empty store, the committed sequence
block session for account 5, queue processing (remote success), unblock
session for account 5, and a second block session for account 5 reaches a
committed state in which account 5 sits in both the block queue and the
unblock queue: the gate let the second block through because it never consults
the unblock queue. -/
theorem C2_counterexample : c2BothQueuesCheck = true := by decide

theorem mem_insertDesc (e x : BlockQueueEntry) (l : List BlockQueueEntry) :
    x ∈ insertDesc e l ↔ x = e ∨ x ∈ l := by
  induction l with
  | nil => simp [insertDesc]
  | cons y ys ih =>
    simp only [insertDesc]
    split
    · simp [List.mem_cons]
    · simp only [List.mem_cons, ih]
      tauto

theorem mem_sortDesc (x : BlockQueueEntry) (l : List BlockQueueEntry) :
    x ∈ sortDesc l ↔ x ∈ l := by
  induction l with
  | nil => simp [sortDesc]
  | cons y ys ih => simp [sortDesc, mem_insertDesc, ih]

theorem mem_selectBatch (x : BlockQueueEntry) (q : List BlockQueueEntry)
    (t : Int) (n : Nat) (h : x ∈ selectBatch q t n) :
    x ∈ q ∧ x.queued_at ≤ t := by
  unfold selectBatch at h
  have h2 := List.take_subset _ _ h
  rw [mem_sortDesc, List.mem_filter] at h2
  exact ⟨h2.1, by simpa using h2.2⟩

/-- C7: on api code 50 (target permanently gone) the processor deletes the
queue row, counts it in blocked_num (the returned resolved count), leaves the
registry untouched, commits, and continues with the remaining batch entries;
an api error with any other code besides 63, or any non-api error, is
propagated immediately, returning the committed state reached so far, and the
while loop turns that propagation into an aborted run. -/
theorem C7_error_classification (wl : List Nat) (remote : Nat → RemoteOutcome)
    (now : Int) (e : BlockQueueEntry) (rest : List BlockQueueEntry) (st : ProcState)
    (hwl : whitelistHit wl e.user_id = false) :
    (remote e.user_id = RemoteOutcome.errCode 50 →
      processBatch wl remote now (e :: rest) st =
        processBatch wl remote now rest (commitState
          { st with
            store := { st.store with
              blockQueue := deleteQueueRow st.store.blockQueue e.user_id },
            blocked := st.blocked + 1 })) ∧
    (∀ c : Nat, c ≠ 50 → c ≠ 63 → remote e.user_id = RemoteOutcome.errCode c →
      processBatch wl remote now (e :: rest) st = BatchOut.err st) ∧
    (remote e.user_id = RemoteOutcome.errOther →
      processBatch wl remote now (e :: rest) st = BatchOut.err st) ∧
    (∀ (time_start : Int) (batch_size fuel : Nat) (st0 stE : ProcState)
        (b : BlockQueueEntry) (bs : List BlockQueueEntry),
      selectBatch st0.store.blockQueue time_start batch_size = b :: bs →
      processBatch wl remote now (b :: bs) st0 = BatchOut.err stE →
      processLoop wl remote now time_start batch_size (fuel + 1) st0 =
        RunResult.err stE) := by
  refine ⟨?_, ?_, ?_, ?_⟩
  · intro h50
    simp [processBatch, hwl, h50]
  · intro c hc50 hc63 hc
    have h1 : (c == 50) = false := beq_eq_false_iff_ne.mpr hc50
    have h2 : (c == 63) = false := beq_eq_false_iff_ne.mpr hc63
    simp [processBatch, hwl, hc, h1, h2]
  · intro h
    simp [processBatch, hwl, h]
  · intro t bs fuel st0 stE b bsl hsel hpb
    simp [processLoop, hsel, hpb]

def c7Entry : BlockQueueEntry := ⟨4, 0, 2, some 9, some 1⟩

def c7State : ProcState := ⟨{ emptyStore with blockQueue := [c7Entry] }, 0, []⟩

/-- C7 witness: a singleton batch whose remote call fails with code 50 is
resolved by deleting the row and counting it, with processing continuing on
the (empty) remainder of the batch. -/
theorem C7_error_classification_witness :
    processBatch [] (fun _ => RemoteOutcome.errCode 50) 5 [c7Entry] c7State =
      processBatch [] (fun _ => RemoteOutcome.errCode 50) 5 [] (commitState
        { c7State with
          store := { c7State.store with
            blockQueue := deleteQueueRow c7State.store.blockQueue 4 },
          blocked := c7State.blocked + 1 }) :=
  (C7_error_classification [] (fun _ => RemoteOutcome.errCode 50) 5 c7Entry [] c7State
      (by decide)).1 rfl

/-- C6 amended: on api code 63 the processor keeps the entry, pushes its
queued_at exactly 86400 seconds past its previous value, commits, and
continues with the next entry; batch selection only ever returns rows with
queued_at at or before the start time, so the entry is not selected by a run
whose start time is earlier than the bumped queued_at.  Because the bump is
relative to the previous queued_at rather than to the present moment, the
bumped time can still lie in the past, and a run started immediately after
can select the entry again (see the counterexample). -/
theorem C6_amended_reschedule (wl : List Nat) (remote : Nat → RemoteOutcome)
    (now : Int) (e : BlockQueueEntry) (rest : List BlockQueueEntry) (st : ProcState)
    (hwl : whitelistHit wl e.user_id = false)
    (h63 : remote e.user_id = RemoteOutcome.errCode 63) :
    processBatch wl remote now (e :: rest) st =
      processBatch wl remote now rest (commitState
        { st with
          store := { st.store with
            blockQueue := bumpQueueRow st.store.blockQueue e.user_id } }) ∧
    (∀ x ∈ st.store.blockQueue, x.user_id = e.user_id →
      { x with queued_at := x.queued_at + 86400 } ∈
        bumpQueueRow st.store.blockQueue e.user_id) ∧
    (∀ (q : List BlockQueueEntry) (t : Int) (n : Nat) (x : BlockQueueEntry),
      x ∈ selectBatch q t n → x.queued_at ≤ t) := by
  refine ⟨?_, ?_, ?_⟩
  · simp [processBatch, hwl, h63]
  · intro x hx hxe
    unfold bumpQueueRow
    refine List.mem_map.mpr ⟨x, hx, ?_⟩
    simp [hxe]
  · intro q t n x hx
    exact (mem_selectBatch x q t n hx).2

/-- C6 amended witness: the code-63 entry of the counterexample store is kept
and rescheduled by exactly one day. -/
theorem C6_amended_reschedule_witness :
    processBatch [] (fun _ => RemoteOutcome.errCode 63) 259199
        [⟨9, 172800, 2, some 3, some 1⟩] ⟨c6Store, 0, []⟩ =
      processBatch [] (fun _ => RemoteOutcome.errCode 63) 259199 [] (commitState
        { (⟨c6Store, 0, []⟩ : ProcState) with
          store := { c6Store with
            blockQueue := bumpQueueRow c6Store.blockQueue 9 } }) :=
  (C6_amended_reschedule [] (fun _ => RemoteOutcome.errCode 63) 259199
      ⟨9, 172800, 2, some 3, some 1⟩ [] ⟨c6Store, 0, []⟩ (by decide) rfl).1

/-- No account id occurs in the block queue and in the registry at once:
every queue row differs in account id from every registry row. -/
def StoreQLDisjoint (s : Store) : Prop :=
  ∀ q ∈ s.blockQueue, ∀ r ∈ s.blockList, q.user_id ≠ r.user_id

theorem disjoint_ok_step (s : Store) (e : BlockQueueEntry) (now : Int)
    (h1 : StoreQLDisjoint s) :
    StoreQLDisjoint { s with
      blockList := ⟨e.user_id, some now, e.reason, e.reason_id, e.session⟩ :: s.blockList,
      blockQueue := deleteQueueRow s.blockQueue e.user_id } := by
  intro q hq r hr
  have hq2 := List.mem_filter.mp hq
  rcases List.mem_cons.mp hr with hr1 | hr2
  · subst hr1
    simpa using hq2.2
  · exact h1 q hq2.1 r hr2

theorem disjoint_delete (s : Store) (uid : Nat) (h1 : StoreQLDisjoint s) :
    StoreQLDisjoint { s with blockQueue := deleteQueueRow s.blockQueue uid } := by
  intro q hq r hr
  exact h1 q (List.mem_filter.mp hq).1 r hr

theorem disjoint_bump (s : Store) (uid : Nat) (h1 : StoreQLDisjoint s) :
    StoreQLDisjoint { s with blockQueue := bumpQueueRow s.blockQueue uid } := by
  intro q hq r hr
  rcases List.mem_map.mp hq with ⟨y, hy, hyq⟩
  have huid : q.user_id = y.user_id := by
    subst hyq
    by_cases hcase : y.user_id == uid <;> simp [hcase]
  rw [huid]
  exact h1 y hy r hr

theorem processBatch_disjoint (wl : List Nat) (remote : Nat → RemoteOutcome)
    (now : Int) :
    ∀ (batch : List BlockQueueEntry) (st : ProcState),
      StoreQLDisjoint st.store → (∀ s ∈ st.trace, StoreQLDisjoint s) →
      StoreQLDisjoint (processBatch wl remote now batch st).state.store ∧
      ∀ s ∈ (processBatch wl remote now batch st).state.trace, StoreQLDisjoint s := by
  intro batch
  induction batch with
  | nil => intro st h1 h2; exact ⟨h1, h2⟩
  | cons e rest ih =>
    intro st h1 h2
    by_cases hwl : whitelistHit wl e.user_id
    · rw [show processBatch wl remote now (e :: rest) st = processBatch wl remote now rest st from
        by simp [processBatch, hwl]]
      exact ih st h1 h2
    · rw [Bool.not_eq_true] at hwl
      cases hrem : remote e.user_id with
      | ok =>
        rw [show processBatch wl remote now (e :: rest) st =
            processBatch wl remote now rest (commitState
              { st with
                store := { st.store with
                  blockList :=
                    ⟨e.user_id, some now, e.reason, e.reason_id, e.session⟩ ::
                      st.store.blockList,
                  blockQueue := deleteQueueRow st.store.blockQueue e.user_id },
                blocked := st.blocked + 1 }) from by simp [processBatch, hwl, hrem]]
        apply ih
        · exact disjoint_ok_step st.store e now h1
        · intro s hs
          rcases List.mem_append.mp hs with hs1 | hs2
          · exact h2 s hs1
          · rw [List.mem_singleton] at hs2
            subst hs2
            exact disjoint_ok_step st.store e now h1
      | errCode c =>
        by_cases h50 : c = 50
        · subst h50
          rw [show processBatch wl remote now (e :: rest) st =
              processBatch wl remote now rest (commitState
                { st with
                  store := { st.store with
                    blockQueue := deleteQueueRow st.store.blockQueue e.user_id },
                  blocked := st.blocked + 1 }) from by simp [processBatch, hwl, hrem]]
          apply ih
          · exact disjoint_delete st.store e.user_id h1
          · intro s hs
            rcases List.mem_append.mp hs with hs1 | hs2
            · exact h2 s hs1
            · rw [List.mem_singleton] at hs2
              subst hs2
              exact disjoint_delete st.store e.user_id h1
        · by_cases h63 : c = 63
          · subst h63
            rw [show processBatch wl remote now (e :: rest) st =
                processBatch wl remote now rest (commitState
                  { st with
                    store := { st.store with
                      blockQueue := bumpQueueRow st.store.blockQueue e.user_id } })
                from by simp [processBatch, hwl, hrem]]
            apply ih
            · exact disjoint_bump st.store e.user_id h1
            · intro s hs
              rcases List.mem_append.mp hs with hs1 | hs2
              · exact h2 s hs1
              · rw [List.mem_singleton] at hs2
                subst hs2
                exact disjoint_bump st.store e.user_id h1
          · have hb50 : (c == 50) = false := beq_eq_false_iff_ne.mpr h50
            have hb63 : (c == 63) = false := beq_eq_false_iff_ne.mpr h63
            rw [show processBatch wl remote now (e :: rest) st = BatchOut.err st from
              by simp [processBatch, hwl, hrem, hb50, hb63]]
            exact ⟨h1, h2⟩
      | errOther =>
        rw [show processBatch wl remote now (e :: rest) st = BatchOut.err st from
          by simp [processBatch, hwl, hrem]]
        exact ⟨h1, h2⟩
      | interrupt =>
        rw [show processBatch wl remote now (e :: rest) st = BatchOut.stop st from
          by simp [processBatch, hwl, hrem]]
        exact ⟨h1, h2⟩

theorem processLoop_disjoint (wl : List Nat) (remote : Nat → RemoteOutcome)
    (now time_start : Int) (batch_size : Nat) :
    ∀ (fuel : Nat) (st : ProcState),
      StoreQLDisjoint st.store → (∀ s ∈ st.trace, StoreQLDisjoint s) →
      match processLoop wl remote now time_start batch_size fuel st with
      | RunResult.ok st2 => StoreQLDisjoint st2.store ∧ ∀ s ∈ st2.trace, StoreQLDisjoint s
      | RunResult.err st2 => StoreQLDisjoint st2.store ∧ ∀ s ∈ st2.trace, StoreQLDisjoint s
      | RunResult.fuelOut => True := by
  intro fuel
  induction fuel with
  | zero => intro st h1 h2; trivial
  | succ n ih =>
    intro st h1 h2
    cases hsel : selectBatch st.store.blockQueue time_start batch_size with
    | nil =>
      rw [show processLoop wl remote now time_start batch_size (n + 1) st = RunResult.ok st
        from by simp [processLoop, hsel]]
      exact ⟨h1, h2⟩
    | cons e rest =>
      have hinv := processBatch_disjoint wl remote now (e :: rest) st h1 h2
      cases hpb : processBatch wl remote now (e :: rest) st with
      | cont st2 =>
        rw [show processLoop wl remote now time_start batch_size (n + 1) st =
            processLoop wl remote now time_start batch_size n st2 from
          by simp [processLoop, hsel, hpb]]
        rw [hpb] at hinv
        exact ih st2 hinv.1 hinv.2
      | stop st2 =>
        rw [show processLoop wl remote now time_start batch_size (n + 1) st =
            RunResult.ok st2 from by simp [processLoop, hsel, hpb]]
        rw [hpb] at hinv
        exact hinv
      | err st2 =>
        rw [show processLoop wl remote now time_start batch_size (n + 1) st =
            RunResult.err st2 from by simp [processLoop, hsel, hpb]]
        rw [hpb] at hinv
        exact hinv

/-- C9: starting from a store in which no account id is both queued and
registered, every committed snapshot taken during a processing run and the
final committed state keep that exclusion (the registry insert and the queue
delete of a successful block are a single commit, so no committed state shows
the id in both tables), and after a run that fully drained the block queue no
account id is simultaneously present in the registry and the block queue. -/
theorem C9_registry_queue_disjoint (wl : List Nat) (remote : Nat → RemoteOutcome)
    (now time_start : Int) (batch_size fuel : Nat) (store : Store)
    (hdisj : StoreQLDisjoint store) :
    match process_block_queue wl remote now time_start batch_size fuel store with
    | RunResult.ok st =>
        (StoreQLDisjoint st.store ∧ ∀ s ∈ st.trace, StoreQLDisjoint s) ∧
        (st.store.blockQueue = [] →
          ∀ u : Nat, ¬ (u ∈ st.store.blockQueue.map (fun q => q.user_id) ∧
            u ∈ st.store.blockList.map (fun r => r.user_id)))
    | RunResult.err st => StoreQLDisjoint st.store ∧ ∀ s ∈ st.trace, StoreQLDisjoint s
    | RunResult.fuelOut => True := by
  by_cases hemp : store.blockQueue.isEmpty
  · rw [show process_block_queue wl remote now time_start batch_size fuel store =
        RunResult.ok ⟨store, 0, []⟩ from by simp [process_block_queue, hemp]]
    show (StoreQLDisjoint store ∧ ∀ s ∈ ([] : List Store), StoreQLDisjoint s) ∧
      (store.blockQueue = [] →
        ∀ u : Nat, ¬ (u ∈ store.blockQueue.map (fun q => q.user_id) ∧
          u ∈ store.blockList.map (fun r => r.user_id)))
    refine ⟨⟨hdisj, by simp⟩, ?_⟩
    intro hq u hu
    rcases hu with ⟨hu1, _⟩
    rw [hq] at hu1
    simp at hu1
  · rw [show process_block_queue wl remote now time_start batch_size fuel store =
        processLoop wl remote now time_start batch_size fuel ⟨store, 0, []⟩ from
      by simp [process_block_queue, hemp]]
    have hl := processLoop_disjoint wl remote now time_start batch_size fuel
      ⟨store, 0, []⟩ hdisj (by simp)
    cases hres : processLoop wl remote now time_start batch_size fuel ⟨store, 0, []⟩ with
    | ok st =>
      rw [hres] at hl
      have hl2 : StoreQLDisjoint st.store ∧ ∀ s ∈ st.trace, StoreQLDisjoint s := hl
      show (StoreQLDisjoint st.store ∧ ∀ s ∈ st.trace, StoreQLDisjoint s) ∧
        (st.store.blockQueue = [] →
          ∀ u : Nat, ¬ (u ∈ st.store.blockQueue.map (fun q => q.user_id) ∧
            u ∈ st.store.blockList.map (fun r => r.user_id)))
      refine ⟨hl2, ?_⟩
      intro hq u hu
      rcases hu with ⟨hu1, _⟩
      rw [hq] at hu1
      simp at hu1
    | err st =>
      rw [hres] at hl
      exact hl
    | fuelOut => trivial

def c9Store : Store := { emptyStore with blockQueue := [⟨4, 0, 1, none, some 1⟩] }

def c9FinalStore : Store := { emptyStore with blockList := [⟨4, some 20, 1, none, some 1⟩] }

def c9Final : ProcState := ⟨c9FinalStore, 1, [c9FinalStore]⟩

/-- C9 witness: a run that fully drains a one-entry queue through a
successful remote block keeps every committed snapshot and the final state
free of ids that are both queued and registered. -/
theorem C9_registry_queue_disjoint_witness :
    (StoreQLDisjoint c9Final.store ∧ ∀ s ∈ c9Final.trace, StoreQLDisjoint s) ∧
    (c9Final.store.blockQueue = [] →
      ∀ u : Nat, ¬ (u ∈ c9Final.store.blockQueue.map (fun q => q.user_id) ∧
        u ∈ c9Final.store.blockList.map (fun r => r.user_id))) := by
  have h := C9_registry_queue_disjoint [] (fun _ => RemoteOutcome.ok) 20 20 50 3 c9Store
    (by unfold StoreQLDisjoint; decide)
  rw [show process_block_queue [] (fun _ => RemoteOutcome.ok) 20 20 50 3 c9Store =
      RunResult.ok c9Final from by decide] at h
  exact h

/-- The state committed by a successful remote block: registry insert and
queue delete in one commit, success counter incremented. -/
def okStep (now : Int) (e : BlockQueueEntry) (st : ProcState) : ProcState :=
  commitState { st with
    store := { st.store with
      blockList :=
        ⟨e.user_id, some now, e.reason, e.reason_id, e.session⟩ :: st.store.blockList,
      blockQueue := deleteQueueRow st.store.blockQueue e.user_id },
    blocked := st.blocked + 1 }

/-- The state committed on api code 50: queue delete only, counter
incremented. -/
def goneStep (e : BlockQueueEntry) (st : ProcState) : ProcState :=
  commitState { st with
    store := { st.store with
      blockQueue := deleteQueueRow st.store.blockQueue e.user_id },
    blocked := st.blocked + 1 }

/-- The state committed on api code 63: the one-day reschedule. -/
def delayStep (e : BlockQueueEntry) (st : ProcState) : ProcState :=
  commitState { st with
    store := { st.store with
      blockQueue := bumpQueueRow st.store.blockQueue e.user_id } }

theorem processBatch_cons_skip (wl : List Nat) (remote : Nat → RemoteOutcome)
    (now : Int) (e : BlockQueueEntry) (rest : List BlockQueueEntry) (st : ProcState)
    (hwl : whitelistHit wl e.user_id = true) :
    processBatch wl remote now (e :: rest) st = processBatch wl remote now rest st := by
  simp [processBatch, hwl]

theorem processBatch_cons_ok (wl : List Nat) (remote : Nat → RemoteOutcome)
    (now : Int) (e : BlockQueueEntry) (rest : List BlockQueueEntry) (st : ProcState)
    (hwl : whitelistHit wl e.user_id = false)
    (hrem : remote e.user_id = RemoteOutcome.ok) :
    processBatch wl remote now (e :: rest) st =
      processBatch wl remote now rest (okStep now e st) := by
  simp [processBatch, hwl, hrem, okStep]

theorem processBatch_cons_gone (wl : List Nat) (remote : Nat → RemoteOutcome)
    (now : Int) (e : BlockQueueEntry) (rest : List BlockQueueEntry) (st : ProcState)
    (hwl : whitelistHit wl e.user_id = false)
    (hrem : remote e.user_id = RemoteOutcome.errCode 50) :
    processBatch wl remote now (e :: rest) st =
      processBatch wl remote now rest (goneStep e st) := by
  simp [processBatch, hwl, hrem, goneStep]

theorem processBatch_cons_delay (wl : List Nat) (remote : Nat → RemoteOutcome)
    (now : Int) (e : BlockQueueEntry) (rest : List BlockQueueEntry) (st : ProcState)
    (hwl : whitelistHit wl e.user_id = false)
    (hrem : remote e.user_id = RemoteOutcome.errCode 63) :
    processBatch wl remote now (e :: rest) st =
      processBatch wl remote now rest (delayStep e st) := by
  simp [processBatch, hwl, hrem, delayStep]

theorem processBatch_cons_errelse (wl : List Nat) (remote : Nat → RemoteOutcome)
    (now : Int) (e : BlockQueueEntry) (rest : List BlockQueueEntry) (st : ProcState)
    (c : Nat) (hwl : whitelistHit wl e.user_id = false)
    (hrem : remote e.user_id = RemoteOutcome.errCode c)
    (h50 : c ≠ 50) (h63 : c ≠ 63) :
    processBatch wl remote now (e :: rest) st = BatchOut.err st := by
  have hb50 : (c == 50) = false := beq_eq_false_iff_ne.mpr h50
  have hb63 : (c == 63) = false := beq_eq_false_iff_ne.mpr h63
  simp [processBatch, hwl, hrem, hb50, hb63]

theorem processBatch_cons_errOther (wl : List Nat) (remote : Nat → RemoteOutcome)
    (now : Int) (e : BlockQueueEntry) (rest : List BlockQueueEntry) (st : ProcState)
    (hwl : whitelistHit wl e.user_id = false)
    (hrem : remote e.user_id = RemoteOutcome.errOther) :
    processBatch wl remote now (e :: rest) st = BatchOut.err st := by
  simp [processBatch, hwl, hrem]

theorem processBatch_cons_interrupt (wl : List Nat) (remote : Nat → RemoteOutcome)
    (now : Int) (e : BlockQueueEntry) (rest : List BlockQueueEntry) (st : ProcState)
    (hwl : whitelistHit wl e.user_id = false)
    (hrem : remote e.user_id = RemoteOutcome.interrupt) :
    processBatch wl remote now (e :: rest) st = BatchOut.stop st := by
  simp [processBatch, hwl, hrem]

theorem sum_map_le_sum_map {α : Type} (f g : α → Nat) (l : List α) :
    (∀ x ∈ l, f x ≤ g x) → (l.map f).sum ≤ (l.map g).sum := by
  induction l with
  | nil => intro _; exact le_refl _
  | cons x xs ih =>
    intro h
    simp only [List.map_cons, List.sum_cons]
    have h1 := h x (List.mem_cons_self x xs)
    have h2 := ih (fun y hy => h y (List.mem_cons_of_mem x hy))
    omega

theorem sum_map_lt_sum_map {α : Type} (f g : α → Nat) (l : List α) (e : α) :
    e ∈ l → f e < g e → (∀ x ∈ l, f x ≤ g x) →
    (l.map f).sum < (l.map g).sum := by
  induction l with
  | nil => intro he; cases he
  | cons x xs ih =>
    intro he hlt h
    simp only [List.map_cons, List.sum_cons]
    rcases List.mem_cons.mp he with he1 | he2
    · subst he1
      have h2 := sum_map_le_sum_map f g xs (fun y hy => h y (List.mem_cons_of_mem e hy))
      omega
    · have h1 := h x (List.mem_cons_self x xs)
      have h2 := ih he2 hlt (fun y hy => h y (List.mem_cons_of_mem x hy))
      omega

theorem le_sum_map_of_mem {α : Type} (f : α → Nat) (l : List α) (x : α) :
    x ∈ l → f x ≤ (l.map f).sum := by
  induction l with
  | nil => intro h; cases h
  | cons y ys ih =>
    intro h
    simp only [List.map_cons, List.sum_cons]
    rcases List.mem_cons.mp h with h1 | h2
    · subst h1; omega
    · have := ih h2; omega

theorem sum_map_filter_add {α : Type} (f : α → Nat) (p : α → Bool) (l : List α) :
    ((l.filter p).map f).sum + ((l.filter (fun x => !(p x))).map f).sum =
      (l.map f).sum := by
  induction l with
  | nil => rfl
  | cons x xs ih =>
    by_cases hx : p x <;> simp [List.filter_cons, hx] <;> omega

/-- Bound on the number of times a queue row can still be selected before it
leaves eligibility: zero once queued_at passes the start time of the run,
otherwise at least two and shrinking with every one-day reschedule. -/
def entryMeasure (time_start : Int) (e : BlockQueueEntry) : Nat :=
  if e.queued_at ≤ time_start then ((time_start - e.queued_at).toNat / 86400) + 2 else 0

/-- Sum of the entry measures over a queue: a strictly decreasing bound for
the while loop of the processor. -/
def queueMeasure (time_start : Int) (q : List BlockQueueEntry) : Nat :=
  (q.map (entryMeasure time_start)).sum

theorem entryMeasure_pos (t : Int) (e : BlockQueueEntry) (hel : e.queued_at ≤ t) :
    2 ≤ entryMeasure t e := by
  unfold entryMeasure
  rw [if_pos hel]
  omega

theorem entryMeasure_bump_le (t : Int) (e : BlockQueueEntry) :
    entryMeasure t { e with queued_at := e.queued_at + 86400 } ≤ entryMeasure t e := by
  show (if e.queued_at + 86400 ≤ t then ((t - (e.queued_at + 86400)).toNat / 86400) + 2 else 0) ≤
    (if e.queued_at ≤ t then ((t - e.queued_at).toNat / 86400) + 2 else 0)
  by_cases h2 : e.queued_at + 86400 ≤ t
  · rw [if_pos h2, if_pos (by omega)]
    have hX : (t - e.queued_at).toNat = (t - (e.queued_at + 86400)).toNat + 86400 := by omega
    rw [hX, Nat.add_div_right _ (by norm_num)]
    omega
  · rw [if_neg h2]
    omega

theorem entryMeasure_bump_lt (t : Int) (e : BlockQueueEntry) (hel : e.queued_at ≤ t) :
    entryMeasure t { e with queued_at := e.queued_at + 86400 } < entryMeasure t e := by
  show (if e.queued_at + 86400 ≤ t then ((t - (e.queued_at + 86400)).toNat / 86400) + 2 else 0) <
    (if e.queued_at ≤ t then ((t - e.queued_at).toNat / 86400) + 2 else 0)
  rw [if_pos hel]
  by_cases h2 : e.queued_at + 86400 ≤ t
  · rw [if_pos h2]
    have hX : (t - e.queued_at).toNat = (t - (e.queued_at + 86400)).toNat + 86400 := by omega
    rw [hX, Nat.add_div_right _ (by norm_num)]
    omega
  · rw [if_neg h2]
    omega

theorem queueMeasure_delete_le (t : Int) (q : List BlockQueueEntry) (uid : Nat) :
    queueMeasure t (deleteQueueRow q uid) ≤ queueMeasure t q := by
  have h := sum_map_filter_add (entryMeasure t) (fun e => !(e.user_id == uid)) q
  unfold queueMeasure deleteQueueRow
  omega

theorem queueMeasure_delete_lt (t : Int) (q : List BlockQueueEntry)
    (e : BlockQueueEntry) (he : e ∈ q) (hel : e.queued_at ≤ t) :
    queueMeasure t (deleteQueueRow q e.user_id) < queueMeasure t q := by
  have h := sum_map_filter_add (entryMeasure t) (fun x => !(x.user_id == e.user_id)) q
  have hd : e ∈ q.filter (fun x => !(!(x.user_id == e.user_id))) :=
    List.mem_filter.mpr ⟨he, by simp⟩
  have hge := le_sum_map_of_mem (entryMeasure t) _ e hd
  have hp := entryMeasure_pos t e hel
  unfold queueMeasure deleteQueueRow
  omega

theorem queueMeasure_bump_le (t : Int) (q : List BlockQueueEntry) (uid : Nat) :
    queueMeasure t (bumpQueueRow q uid) ≤ queueMeasure t q := by
  unfold queueMeasure bumpQueueRow
  rw [List.map_map]
  apply sum_map_le_sum_map
  intro x _
  simp only [Function.comp_apply]
  by_cases hc : (x.user_id == uid) = true
  · rw [if_pos hc]
    exact entryMeasure_bump_le t x
  · rw [if_neg hc]

theorem queueMeasure_bump_lt (t : Int) (q : List BlockQueueEntry)
    (e : BlockQueueEntry) (he : e ∈ q) (hel : e.queued_at ≤ t) :
    queueMeasure t (bumpQueueRow q e.user_id) < queueMeasure t q := by
  unfold queueMeasure bumpQueueRow
  rw [List.map_map]
  refine sum_map_lt_sum_map _ _ q e he ?_ ?_
  · simp only [Function.comp_apply]
    rw [if_pos (beq_self_eq_true e.user_id)]
    exact entryMeasure_bump_lt t e hel
  · intro x _
    simp only [Function.comp_apply]
    by_cases hc : (x.user_id == e.user_id) = true
    · rw [if_pos hc]
      exact entryMeasure_bump_le t x
    · rw [if_neg hc]

theorem processBatch_measure_le (wl : List Nat) (remote : Nat → RemoteOutcome)
    (now t : Int) :
    ∀ (batch : List BlockQueueEntry) (st : ProcState),
      queueMeasure t (processBatch wl remote now batch st).state.store.blockQueue ≤
        queueMeasure t st.store.blockQueue := by
  intro batch
  induction batch with
  | nil => intro st; exact le_refl _
  | cons e rest ih =>
    intro st
    by_cases hwl : whitelistHit wl e.user_id
    · rw [processBatch_cons_skip wl remote now e rest st hwl]
      exact ih st
    · rw [Bool.not_eq_true] at hwl
      cases hrem : remote e.user_id with
      | ok =>
        rw [processBatch_cons_ok wl remote now e rest st hwl hrem]
        have h1 := ih (okStep now e st)
        have h2 : queueMeasure t (okStep now e st).store.blockQueue ≤
            queueMeasure t st.store.blockQueue :=
          queueMeasure_delete_le t st.store.blockQueue e.user_id
        omega
      | errCode c =>
        by_cases h50 : c = 50
        · subst h50
          rw [processBatch_cons_gone wl remote now e rest st hwl hrem]
          have h1 := ih (goneStep e st)
          have h2 : queueMeasure t (goneStep e st).store.blockQueue ≤
              queueMeasure t st.store.blockQueue :=
            queueMeasure_delete_le t st.store.blockQueue e.user_id
          omega
        · by_cases h63 : c = 63
          · subst h63
            rw [processBatch_cons_delay wl remote now e rest st hwl hrem]
            have h1 := ih (delayStep e st)
            have h2 : queueMeasure t (delayStep e st).store.blockQueue ≤
                queueMeasure t st.store.blockQueue :=
              queueMeasure_bump_le t st.store.blockQueue e.user_id
            omega
          · rw [processBatch_cons_errelse wl remote now e rest st c hwl hrem h50 h63]
            exact le_refl _
      | errOther =>
        rw [processBatch_cons_errOther wl remote now e rest st hwl hrem]
        exact le_refl _
      | interrupt =>
        rw [processBatch_cons_interrupt wl remote now e rest st hwl hrem]
        exact le_refl _

theorem processBatch_measure_lt (wl : List Nat) (remote : Nat → RemoteOutcome)
    (now t : Int) (e : BlockQueueEntry) (rest : List BlockQueueEntry)
    (st st2 : ProcState) (hwl : whitelistHit wl e.user_id = false)
    (he : e ∈ st.store.blockQueue) (hel : e.queued_at ≤ t)
    (hcont : processBatch wl remote now (e :: rest) st = BatchOut.cont st2) :
    queueMeasure t st2.store.blockQueue < queueMeasure t st.store.blockQueue := by
  cases hrem : remote e.user_id with
  | ok =>
    rw [processBatch_cons_ok wl remote now e rest st hwl hrem] at hcont
    have h1 := processBatch_measure_le wl remote now t rest (okStep now e st)
    rw [hcont] at h1
    have h2 : queueMeasure t st2.store.blockQueue ≤
        queueMeasure t (deleteQueueRow st.store.blockQueue e.user_id) := h1
    have h3 := queueMeasure_delete_lt t st.store.blockQueue e he hel
    omega
  | errCode c =>
    by_cases h50 : c = 50
    · subst h50
      rw [processBatch_cons_gone wl remote now e rest st hwl hrem] at hcont
      have h1 := processBatch_measure_le wl remote now t rest (goneStep e st)
      rw [hcont] at h1
      have h2 : queueMeasure t st2.store.blockQueue ≤
          queueMeasure t (deleteQueueRow st.store.blockQueue e.user_id) := h1
      have h3 := queueMeasure_delete_lt t st.store.blockQueue e he hel
      omega
    · by_cases h63 : c = 63
      · subst h63
        rw [processBatch_cons_delay wl remote now e rest st hwl hrem] at hcont
        have h1 := processBatch_measure_le wl remote now t rest (delayStep e st)
        rw [hcont] at h1
        have h2 : queueMeasure t st2.store.blockQueue ≤
            queueMeasure t (bumpQueueRow st.store.blockQueue e.user_id) := h1
        have h3 := queueMeasure_bump_lt t st.store.blockQueue e he hel
        omega
      · rw [processBatch_cons_errelse wl remote now e rest st c hwl hrem h50 h63] at hcont
        cases hcont
  | errOther =>
    rw [processBatch_cons_errOther wl remote now e rest st hwl hrem] at hcont
    cases hcont
  | interrupt =>
    rw [processBatch_cons_interrupt wl remote now e rest st hwl hrem] at hcont
    cases hcont

/-- No eligible queue row has a whitelisted account id. -/
def SafeQueue (wl : List Nat) (t : Int) (q : List BlockQueueEntry) : Prop :=
  ∀ e ∈ q, e.queued_at ≤ t → whitelistHit wl e.user_id = false

theorem safe_delete (wl : List Nat) (t : Int) (q : List BlockQueueEntry) (uid : Nat)
    (h : SafeQueue wl t q) : SafeQueue wl t (deleteQueueRow q uid) :=
  fun e he hel => h e (List.mem_filter.mp he).1 hel

theorem safe_bump (wl : List Nat) (t : Int) (q : List BlockQueueEntry) (uid : Nat)
    (h : SafeQueue wl t q) : SafeQueue wl t (bumpQueueRow q uid) := by
  intro e he hel
  rcases List.mem_map.mp he with ⟨y, hy, hye⟩
  by_cases hc : (y.user_id == uid) = true
  · rw [if_pos hc] at hye
    subst hye
    have hel2 : y.queued_at + 86400 ≤ t := hel
    exact h y hy (by omega)
  · rw [if_neg hc] at hye
    subst hye
    exact h y hy hel

theorem processBatch_safe (wl : List Nat) (remote : Nat → RemoteOutcome) (now t : Int) :
    ∀ (batch : List BlockQueueEntry) (st : ProcState),
      SafeQueue wl t st.store.blockQueue →
      SafeQueue wl t (processBatch wl remote now batch st).state.store.blockQueue := by
  intro batch
  induction batch with
  | nil => intro st h; exact h
  | cons e rest ih =>
    intro st h
    by_cases hwl : whitelistHit wl e.user_id
    · rw [processBatch_cons_skip wl remote now e rest st hwl]
      exact ih st h
    · rw [Bool.not_eq_true] at hwl
      cases hrem : remote e.user_id with
      | ok =>
        rw [processBatch_cons_ok wl remote now e rest st hwl hrem]
        exact ih (okStep now e st) (safe_delete wl t st.store.blockQueue e.user_id h)
      | errCode c =>
        by_cases h50 : c = 50
        · subst h50
          rw [processBatch_cons_gone wl remote now e rest st hwl hrem]
          exact ih (goneStep e st) (safe_delete wl t st.store.blockQueue e.user_id h)
        · by_cases h63 : c = 63
          · subst h63
            rw [processBatch_cons_delay wl remote now e rest st hwl hrem]
            exact ih (delayStep e st) (safe_bump wl t st.store.blockQueue e.user_id h)
          · rw [processBatch_cons_errelse wl remote now e rest st c hwl hrem h50 h63]
            exact h
      | errOther =>
        rw [processBatch_cons_errOther wl remote now e rest st hwl hrem]
        exact h
      | interrupt =>
        rw [processBatch_cons_interrupt wl remote now e rest st hwl hrem]
        exact h

/-- Number of queue rows carrying the given account id (1 at most, by the
primary key constraint). -/
def uidCount (q : List BlockQueueEntry) (uid : Nat) : Nat :=
  (q.filter (fun e => e.user_id == uid)).length

theorem deleteQueueRow_length (q : List BlockQueueEntry) (uid : Nat) :
    (deleteQueueRow q uid).length + uidCount q uid = q.length := by
  unfold deleteQueueRow uidCount
  induction q with
  | nil => rfl
  | cons x xs ih =>
    by_cases hx : (x.user_id == uid) = true <;>
      simp [List.filter_cons, hx] <;> omega

theorem filter_length_congr {α : Type} (p q : α → Bool) (l : List α) :
    (∀ a ∈ l, p a = q a) → (l.filter p).length = (l.filter q).length := by
  induction l with
  | nil => intro _; rfl
  | cons x xs ih =>
    intro h
    rw [List.filter_cons, List.filter_cons, h x (List.mem_cons_self x xs)]
    have ih2 := ih (fun a ha => h a (List.mem_cons_of_mem x ha))
    by_cases hq : q x = true <;> simp [hq, ih2]

theorem length_filter_filter {α : Type} (p q : α → Bool) (l : List α) :
    ((l.filter q).filter p).length = (l.filter (fun a => p a && q a)).length := by
  induction l with
  | nil => rfl
  | cons x xs ih =>
    rw [List.filter_cons]
    by_cases hq : q x = true
    · rw [if_pos hq, List.filter_cons]
      by_cases hp : p x = true <;> simp [List.filter_cons, hp, hq, ih]
    · rw [Bool.not_eq_true] at hq
      simp [List.filter_cons, hq, ih]

theorem length_filter_map {α β : Type} (f : α → β) (p : β → Bool) (l : List α) :
    ((l.map f).filter p).length = (l.filter (fun a => p (f a))).length := by
  induction l with
  | nil => rfl
  | cons x xs ih =>
    rw [List.map_cons, List.filter_cons, List.filter_cons]
    by_cases hp : p (f x) = true <;> simp [hp, ih]

theorem uidCount_delete_ne (q : List BlockQueueEntry) (uid uid2 : Nat)
    (hne : uid ≠ uid2) :
    uidCount (deleteQueueRow q uid2) uid = uidCount q uid := by
  unfold uidCount deleteQueueRow
  rw [length_filter_filter]
  apply filter_length_congr
  intro a _
  by_cases h1 : (a.user_id == uid) = true
  · have h2 : (a.user_id == uid2) = false := by
      rw [beq_iff_eq] at h1
      refine beq_eq_false_iff_ne.mpr ?_
      rw [h1]
      exact hne
    rw [h1, h2]
    rfl
  · rw [Bool.not_eq_true] at h1
    rw [h1]
    rfl

theorem uidCount_bump (q : List BlockQueueEntry) (uid uid2 : Nat) :
    uidCount (bumpQueueRow q uid2) uid = uidCount q uid := by
  unfold uidCount bumpQueueRow
  rw [length_filter_map]
  apply filter_length_congr
  intro a _
  by_cases h2 : (a.user_id == uid2) = true
  · rw [if_pos h2]
  · rw [if_neg h2]

theorem bumpQueueRow_map_uid (q : List BlockQueueEntry) (uid2 : Nat) :
    (bumpQueueRow q uid2).map (fun e => e.user_id) = q.map (fun e => e.user_id) := by
  unfold bumpQueueRow
  induction q with
  | nil => rfl
  | cons x xs ih =>
    rw [List.map_cons, List.map_cons, List.map_cons, ih]
    congr 1
    by_cases h2 : (x.user_id == uid2) = true
    · rw [if_pos h2]
    · rw [if_neg h2]

theorem uidCount_of_mem_nodup (q : List BlockQueueEntry) (e : BlockQueueEntry) :
    (q.map (fun x => x.user_id)).Nodup → e ∈ q → uidCount q e.user_id = 1 := by
  unfold uidCount
  induction q with
  | nil => intro _ he; cases he
  | cons x xs ih =>
    intro hnd he
    rw [List.map_cons, List.nodup_cons] at hnd
    rcases List.mem_cons.mp he with h1 | h2
    · subst h1
      have h0 : xs.filter (fun y => y.user_id == e.user_id) = [] := by
        rw [List.filter_eq_nil_iff]
        intro a ha hcontra
        rw [beq_iff_eq] at hcontra
        exact hnd.1 (List.mem_map.mpr ⟨a, ha, hcontra⟩)
      simp [List.filter_cons, h0]
    · have hx : (x.user_id == e.user_id) = false := by
        refine beq_eq_false_iff_ne.mpr ?_
        intro hh
        exact hnd.1 (hh ▸ List.mem_map.mpr ⟨e, h2, rfl⟩)
      simp only [List.filter_cons, hx]
      simp only [Bool.false_eq_true, if_false]
      exact ih hnd.2 h2

theorem insertDesc_perm (e : BlockQueueEntry) (l : List BlockQueueEntry) :
    List.Perm (insertDesc e l) (e :: l) := by
  induction l with
  | nil => exact List.Perm.refl _
  | cons x xs ih =>
    unfold insertDesc
    split
    · exact List.Perm.refl _
    · exact List.Perm.trans (List.Perm.cons x ih) (List.Perm.swap e x xs)

theorem sortDesc_perm (l : List BlockQueueEntry) : List.Perm (sortDesc l) l := by
  induction l with
  | nil => exact List.Perm.refl _
  | cons x xs ih =>
    exact List.Perm.trans (insertDesc_perm x (sortDesc xs)) (List.Perm.cons x ih)

theorem selectBatch_nodup (q : List BlockQueueEntry) (t : Int) (n : Nat)
    (hqnd : (q.map (fun e => e.user_id)).Nodup) :
    ((selectBatch q t n).map (fun e => e.user_id)).Nodup := by
  have h1 : ((q.filter (fun e => decide (e.queued_at ≤ t))).map
      (fun e => e.user_id)).Nodup :=
    List.Nodup.sublist (List.Sublist.map _ (List.filter_sublist q)) hqnd
  have h2 : ((sortDesc (q.filter (fun e => decide (e.queued_at ≤ t)))).map
      (fun e => e.user_id)).Nodup :=
    (List.Perm.nodup_iff (List.Perm.map _ (sortDesc_perm _))).mpr h1
  unfold selectBatch
  rw [List.map_take]
  exact List.Nodup.sublist (List.take_sublist _ _) h2

theorem processBatch_count (wl : List Nat) (remote : Nat → RemoteOutcome) (now : Int) :
    ∀ (batch : List BlockQueueEntry) (st : ProcState),
      (batch.map (fun e => e.user_id)).Nodup →
      (∀ b ∈ batch, uidCount st.store.blockQueue b.user_id = 1) →
      (st.store.blockQueue.map (fun e => e.user_id)).Nodup →
      ((processBatch wl remote now batch st).state.blocked +
          (processBatch wl remote now batch st).state.store.blockQueue.length =
        st.blocked + st.store.blockQueue.length) ∧
      ((processBatch wl remote now batch st).state.store.blockQueue.map
          (fun e => e.user_id)).Nodup := by
  intro batch
  induction batch with
  | nil => intro st _ _ hqnd; exact ⟨rfl, hqnd⟩
  | cons e rest ih =>
    intro st hbnd hbcnt hqnd
    rw [List.map_cons, List.nodup_cons] at hbnd
    by_cases hwl : whitelistHit wl e.user_id
    · rw [processBatch_cons_skip wl remote now e rest st hwl]
      exact ih st hbnd.2 (fun b hb => hbcnt b (List.mem_cons_of_mem e hb)) hqnd
    · rw [Bool.not_eq_true] at hwl
      have hecnt : uidCount st.store.blockQueue e.user_id = 1 :=
        hbcnt e (List.mem_cons_self e rest)
      have hlen := deleteQueueRow_length st.store.blockQueue e.user_id
      have hrestcnt : ∀ b ∈ rest,
          uidCount (deleteQueueRow st.store.blockQueue e.user_id) b.user_id = 1 := by
        intro b hb
        have hne : b.user_id ≠ e.user_id := by
          intro hh
          exact hbnd.1 (hh ▸ List.mem_map.mpr ⟨b, hb, rfl⟩)
        rw [uidCount_delete_ne _ _ _ hne]
        exact hbcnt b (List.mem_cons_of_mem e hb)
      have hdelnd : ((deleteQueueRow st.store.blockQueue e.user_id).map
          (fun x => x.user_id)).Nodup :=
        List.Nodup.sublist (List.Sublist.map _ (List.filter_sublist _)) hqnd
      cases hrem : remote e.user_id with
      | ok =>
        rw [processBatch_cons_ok wl remote now e rest st hwl hrem]
        have hres := ih (okStep now e st) hbnd.2 hrestcnt hdelnd
        refine ⟨?_, hres.2⟩
        have h1 := hres.1
        have h2 : (okStep now e st).blocked = st.blocked + 1 := rfl
        have h3 : (okStep now e st).store.blockQueue.length =
            (deleteQueueRow st.store.blockQueue e.user_id).length := rfl
        omega
      | errCode c =>
        by_cases h50 : c = 50
        · subst h50
          rw [processBatch_cons_gone wl remote now e rest st hwl hrem]
          have hres := ih (goneStep e st) hbnd.2 hrestcnt hdelnd
          refine ⟨?_, hres.2⟩
          have h1 := hres.1
          have h2 : (goneStep e st).blocked = st.blocked + 1 := rfl
          have h3 : (goneStep e st).store.blockQueue.length =
              (deleteQueueRow st.store.blockQueue e.user_id).length := rfl
          omega
        · by_cases h63 : c = 63
          · subst h63
            rw [processBatch_cons_delay wl remote now e rest st hwl hrem]
            have hbumpcnt : ∀ b ∈ rest,
                uidCount (bumpQueueRow st.store.blockQueue e.user_id) b.user_id = 1 := by
              intro b hb
              rw [uidCount_bump]
              exact hbcnt b (List.mem_cons_of_mem e hb)
            have hbumpnd : ((bumpQueueRow st.store.blockQueue e.user_id).map
                (fun x => x.user_id)).Nodup := by
              rw [bumpQueueRow_map_uid]
              exact hqnd
            have hres := ih (delayStep e st) hbnd.2 hbumpcnt hbumpnd
            refine ⟨?_, hres.2⟩
            have h1 := hres.1
            have h2 : (delayStep e st).blocked = st.blocked := rfl
            have h3 : (delayStep e st).store.blockQueue.length =
                st.store.blockQueue.length := by
              show (bumpQueueRow st.store.blockQueue e.user_id).length = _
              unfold bumpQueueRow
              exact List.length_map _ _
            omega
          · rw [processBatch_cons_errelse wl remote now e rest st c hwl hrem h50 h63]
            exact ⟨rfl, hqnd⟩
      | errOther =>
        rw [processBatch_cons_errOther wl remote now e rest st hwl hrem]
        exact ⟨rfl, hqnd⟩
      | interrupt =>
        rw [processBatch_cons_interrupt wl remote now e rest st hwl hrem]
        exact ⟨rfl, hqnd⟩

theorem processLoop_count (wl : List Nat) (remote : Nat → RemoteOutcome)
    (now t : Int) (bs : Nat) :
    ∀ (fuel : Nat) (st : ProcState),
      (st.store.blockQueue.map (fun e => e.user_id)).Nodup →
      ∀ st2, processLoop wl remote now t bs fuel st = RunResult.ok st2 →
        st2.blocked + st2.store.blockQueue.length =
          st.blocked + st.store.blockQueue.length := by
  intro fuel
  induction fuel with
  | zero =>
    intro st _ st2 h
    simp [processLoop] at h
  | succ n ih =>
    intro st hnd st2 h
    cases hsel : selectBatch st.store.blockQueue t bs with
    | nil =>
      rw [show processLoop wl remote now t bs (n + 1) st = RunResult.ok st from
        by simp [processLoop, hsel]] at h
      cases h
      rfl
    | cons e rest =>
      have hbnd : ((e :: rest).map (fun x => x.user_id)).Nodup := by
        rw [← hsel]
        exact selectBatch_nodup st.store.blockQueue t bs hnd
      have hbcnt : ∀ b ∈ e :: rest, uidCount st.store.blockQueue b.user_id = 1 := by
        intro b hb
        have hmem := (mem_selectBatch b st.store.blockQueue t bs (hsel ▸ hb)).1
        exact uidCount_of_mem_nodup st.store.blockQueue b hnd hmem
      have hc := processBatch_count wl remote now (e :: rest) st hbnd hbcnt hnd
      cases hpb : processBatch wl remote now (e :: rest) st with
      | cont st3 =>
        rw [show processLoop wl remote now t bs (n + 1) st =
            processLoop wl remote now t bs n st3 from by simp [processLoop, hsel, hpb]] at h
        rw [hpb] at hc
        have hc1 : st3.blocked + st3.store.blockQueue.length =
            st.blocked + st.store.blockQueue.length := hc.1
        have hc2 : (st3.store.blockQueue.map (fun e => e.user_id)).Nodup := hc.2
        have hrec := ih st3 hc2 st2 h
        omega
      | stop st3 =>
        rw [show processLoop wl remote now t bs (n + 1) st = RunResult.ok st3 from
          by simp [processLoop, hsel, hpb]] at h
        cases h
        rw [hpb] at hc
        exact hc.1
      | err st3 =>
        rw [show processLoop wl remote now t bs (n + 1) st = RunResult.err st3 from
          by simp [processLoop, hsel, hpb]] at h
        cases h

theorem processLoop_terminates (wl : List Nat) (remote : Nat → RemoteOutcome)
    (now t : Int) (bs : Nat) :
    ∀ (fuel : Nat) (st : ProcState),
      SafeQueue wl t st.store.blockQueue →
      queueMeasure t st.store.blockQueue < fuel →
      processLoop wl remote now t bs fuel st ≠ RunResult.fuelOut := by
  intro fuel
  induction fuel with
  | zero =>
    intro st _ hm
    exact absurd hm (Nat.not_lt_zero _)
  | succ n ih =>
    intro st hs hm
    cases hsel : selectBatch st.store.blockQueue t bs with
    | nil =>
      rw [show processLoop wl remote now t bs (n + 1) st = RunResult.ok st from
        by simp [processLoop, hsel]]
      simp
    | cons e rest =>
      have hein : e ∈ selectBatch st.store.blockQueue t bs := by
        rw [hsel]
        exact List.mem_cons_self e rest
      have hmem := mem_selectBatch e st.store.blockQueue t bs hein
      have hwl : whitelistHit wl e.user_id = false := hs e hmem.1 hmem.2
      cases hpb : processBatch wl remote now (e :: rest) st with
      | cont st2 =>
        rw [show processLoop wl remote now t bs (n + 1) st =
            processLoop wl remote now t bs n st2 from by simp [processLoop, hsel, hpb]]
        apply ih st2
        · have hsf := processBatch_safe wl remote now t (e :: rest) st hs
          rw [hpb] at hsf
          exact hsf
        · have hlt := processBatch_measure_lt wl remote now t e rest st st2 hwl
            hmem.1 hmem.2 hpb
          omega
      | stop st2 =>
        rw [show processLoop wl remote now t bs (n + 1) st = RunResult.ok st2 from
          by simp [processLoop, hsel, hpb]]
        simp
      | err st2 =>
        rw [show processLoop wl remote now t bs (n + 1) st = RunResult.err st2 from
          by simp [processLoop, hsel, hpb]]
        simp

/-- C3 amended: with a positive batch size a processing run terminates
provided no eligible queue entry carries a whitelisted account id; under the
primary key constraint on the queue it then returns, in blocked_num, exactly
the number of entries it removed from the queue (blocked or permanently
failed).  Without that whitelist proviso the claim fails: a whitelisted
eligible entry is skipped without being consumed and is reselected forever
(see the counterexample). -/
theorem C3_amended_terminates_when_no_whitelisted (wl : List Nat)
    (remote : Nat → RemoteOutcome) (now time_start : Int) (batch_size : Nat)
    (store : Store) (hbs : 0 < batch_size)
    (hsafe : ∀ e ∈ store.blockQueue, e.queued_at ≤ time_start →
      whitelistHit wl e.user_id = false)
    (hnodup : (store.blockQueue.map (fun e => e.user_id)).Nodup) :
    (∃ fuel : Nat,
      process_block_queue wl remote now time_start batch_size fuel store ≠
        RunResult.fuelOut) ∧
    (∀ (fuel : Nat) (st : ProcState),
      process_block_queue wl remote now time_start batch_size fuel store =
        RunResult.ok st →
      st.blocked + st.store.blockQueue.length = store.blockQueue.length) := by
  constructor
  · by_cases hemp : store.blockQueue.isEmpty
    · refine ⟨1, ?_⟩
      rw [show process_block_queue wl remote now time_start batch_size 1 store =
          RunResult.ok ⟨store, 0, []⟩ from by simp [process_block_queue, hemp]]
      simp
    · refine ⟨queueMeasure time_start store.blockQueue + 1, ?_⟩
      rw [show process_block_queue wl remote now time_start batch_size
          (queueMeasure time_start store.blockQueue + 1) store =
          processLoop wl remote now time_start batch_size
            (queueMeasure time_start store.blockQueue + 1) ⟨store, 0, []⟩ from
        by simp [process_block_queue, hemp]]
      exact processLoop_terminates wl remote now time_start batch_size _
        ⟨store, 0, []⟩ hsafe (Nat.lt_succ_self _)
  · intro fuel st h
    by_cases hemp : store.blockQueue.isEmpty
    · rw [show process_block_queue wl remote now time_start batch_size fuel store =
          RunResult.ok ⟨store, 0, []⟩ from by simp [process_block_queue, hemp]] at h
      cases h
      simp
    · rw [show process_block_queue wl remote now time_start batch_size fuel store =
          processLoop wl remote now time_start batch_size fuel ⟨store, 0, []⟩ from
        by simp [process_block_queue, hemp]] at h
      have hc := processLoop_count wl remote now time_start batch_size fuel
        ⟨store, 0, []⟩ hnodup st h
      simpa using hc

def c3wStore : Store := { emptyStore with blockQueue := [⟨3, 0, 1, none, some 1⟩] }

/-- C3 amended witness: a one-entry queue with an empty whitelist terminates
and reports one resolved entry. -/
theorem C3_amended_terminates_when_no_whitelisted_witness :
    (∃ fuel : Nat,
      process_block_queue [] (fun _ => RemoteOutcome.ok) 5 10 50 fuel c3wStore ≠
        RunResult.fuelOut) ∧
    (∀ (fuel : Nat) (st : ProcState),
      process_block_queue [] (fun _ => RemoteOutcome.ok) 5 10 50 fuel c3wStore =
        RunResult.ok st →
      st.blocked + st.store.blockQueue.length = c3wStore.blockQueue.length) :=
  C3_amended_terminates_when_no_whitelisted [] (fun _ => RemoteOutcome.ok) 5 10 50
    c3wStore (by norm_num) (fun _ _ _ => rfl) (by decide)

/-- A queue row duplicates the registry when its account id already appears
there: the intersect subquery of clean_duplicate_blocks. -/
def is_dupe (bl : List BlockListEntry) (q : BlockQueueEntry) : Bool :=
  bl.any (fun r => r.user_id == q.user_id)

/-- The filter of the registry update performed for each duplicate: reason
unknown, or null reason source, or null session. -/
def regUpdateCond (r : BlockListEntry) : Bool :=
  r.reason == 0 || r.reason_id == none || r.session == none

/-- One registry row under one duplicate: rows with the same account id that
satisfy the update filter receive the reason, reason source and session of
the queued duplicate. -/
def dupeStep (r : BlockListEntry) (d : BlockQueueEntry) : BlockListEntry :=
  if r.user_id == d.user_id && regUpdateCond r then
    { r with reason := d.reason, reason_id := d.reason_id, session := d.session }
  else r

/-- The per-duplicate registry update statement. -/
def applyDupe (bl : List BlockListEntry) (d : BlockQueueEntry) : List BlockListEntry :=
  bl.map (fun r => dupeStep r d)

/-- Embedding of clean_duplicate_blocks: collect the queue rows whose account
id is already registered; when there are none return false; otherwise run the
update statement for each duplicate, delete every duplicate from the queue,
commit once, and return true. -/
def clean_duplicate_blocks (store : Store) : Store × Bool :=
  if (store.blockQueue.filter (is_dupe store.blockList)).isEmpty then (store, false)
  else
    ({ store with
        blockList := (store.blockQueue.filter (is_dupe store.blockList)).foldl
          applyDupe store.blockList,
        blockQueue := store.blockQueue.filter (fun q => !(is_dupe store.blockList q)) },
      true)

/-- The accumulated effect of the sweep on one registry row. -/
def applyDupesRow (ds : List BlockQueueEntry) (r : BlockListEntry) : BlockListEntry :=
  ds.foldl dupeStep r

theorem foldl_applyDupe_eq_map (ds : List BlockQueueEntry) :
    ∀ bl : List BlockListEntry, ds.foldl applyDupe bl = bl.map (applyDupesRow ds) := by
  induction ds with
  | nil =>
    intro bl
    have hid : applyDupesRow [] = fun r => r := funext (fun r => rfl)
    rw [List.foldl_nil, hid, List.map_id']
  | cons d ds ih =>
    intro bl
    rw [List.foldl_cons, ih (applyDupe bl d)]
    unfold applyDupe
    rw [List.map_map]
    rfl

theorem dupeStep_user_id (r : BlockListEntry) (d : BlockQueueEntry) :
    (dupeStep r d).user_id = r.user_id := by
  unfold dupeStep
  by_cases hc : (r.user_id == d.user_id && regUpdateCond r) = true
  · rw [if_pos hc]
  · rw [if_neg hc]

theorem dupeStep_no_match (r : BlockListEntry) (d : BlockQueueEntry)
    (hne : d.user_id ≠ r.user_id) : dupeStep r d = r := by
  unfold dupeStep
  have hb : (r.user_id == d.user_id) = false :=
    beq_eq_false_iff_ne.mpr (fun hh => hne hh.symm)
  rw [hb]
  simp

theorem applyDupesRow_no_match (ds : List BlockQueueEntry) (r : BlockListEntry) :
    (∀ d ∈ ds, d.user_id ≠ r.user_id) → applyDupesRow ds r = r := by
  induction ds with
  | nil => intro _; rfl
  | cons d ds ih =>
    intro h
    unfold applyDupesRow
    rw [List.foldl_cons, dupeStep_no_match r d (h d (List.mem_cons_self d ds))]
    exact ih (fun d2 hd2 => h d2 (List.mem_cons_of_mem d hd2))

theorem applyDupesRow_eq_dupeStep (q : BlockQueueEntry) (r : BlockListEntry) :
    ∀ ds : List BlockQueueEntry,
      q ∈ ds → (ds.map (fun e => e.user_id)).Nodup → r.user_id = q.user_id →
      applyDupesRow ds r = dupeStep r q := by
  intro ds
  induction ds with
  | nil => intro h; cases h
  | cons d ds ih =>
    intro hq hnd heq
    rw [List.map_cons, List.nodup_cons] at hnd
    rcases List.mem_cons.mp hq with h1 | h2
    · subst h1
      show applyDupesRow ds (dupeStep r q) = dupeStep r q
      apply applyDupesRow_no_match
      intro d2 hd2
      rw [dupeStep_user_id, heq]
      intro hh
      exact hnd.1 (hh ▸ List.mem_map.mpr ⟨d2, hd2, rfl⟩)
    · have hdne : d.user_id ≠ r.user_id := by
        intro hh
        apply hnd.1
        rw [hh, heq]
        exact List.mem_map.mpr ⟨q, h2, rfl⟩
      show applyDupesRow ds (dupeStep r d) = dupeStep r q
      rw [dupeStep_no_match r d hdne]
      exact ih h2 hnd.2 heq

/-- C10: when an account id sits in both the block queue and the registry,
the maintenance sweep returns true, removes every queue row with that id, and
rewrites the matching registry row with the reason, reason source and session
of the queued duplicate exactly when that row had reason 0, a null reason
source, or a null session; otherwise the registry row is kept unchanged.  The
sweep returns true exactly when at least one duplicate exists. -/
theorem C10_maintenance_sweep (s : Store) (q : BlockQueueEntry) (r : BlockListEntry)
    (hq : q ∈ s.blockQueue) (hr : r ∈ s.blockList) (heq : r.user_id = q.user_id)
    (hnd : (s.blockQueue.map (fun e => e.user_id)).Nodup) :
    (clean_duplicate_blocks s).2 = true ∧
    (∀ q2 ∈ (clean_duplicate_blocks s).1.blockQueue, q2.user_id ≠ q.user_id) ∧
    (regUpdateCond r = true →
      { r with reason := q.reason, reason_id := q.reason_id, session := q.session } ∈
        (clean_duplicate_blocks s).1.blockList) ∧
    (regUpdateCond r = false → r ∈ (clean_duplicate_blocks s).1.blockList) ∧
    (∀ s2 : Store, ((clean_duplicate_blocks s2).2 = true ↔
      ∃ q3 ∈ s2.blockQueue, is_dupe s2.blockList q3 = true)) := by
  have hdq : is_dupe s.blockList q = true :=
    List.any_eq_true.mpr ⟨r, hr, beq_iff_eq.mpr heq⟩
  have hqd : q ∈ s.blockQueue.filter (is_dupe s.blockList) :=
    List.mem_filter.mpr ⟨hq, hdq⟩
  have hne : ¬ (s.blockQueue.filter (is_dupe s.blockList)).isEmpty = true := by
    intro hie
    rw [List.isEmpty_iff] at hie
    rw [hie] at hqd
    cases hqd
  have hcdb : clean_duplicate_blocks s =
      ({ s with
          blockList := (s.blockQueue.filter (is_dupe s.blockList)).foldl
            applyDupe s.blockList,
          blockQueue := s.blockQueue.filter (fun x => !(is_dupe s.blockList x)) },
        true) := by
    unfold clean_duplicate_blocks
    rw [if_neg hne]
  have hdnd : ((s.blockQueue.filter (is_dupe s.blockList)).map
      (fun e => e.user_id)).Nodup :=
    List.Nodup.sublist (List.Sublist.map _ (List.filter_sublist _)) hnd
  have hrow : applyDupesRow (s.blockQueue.filter (is_dupe s.blockList)) r =
      dupeStep r q :=
    applyDupesRow_eq_dupeStep q r _ hqd hdnd heq
  refine ⟨by rw [hcdb], ?_, ?_, ?_, ?_⟩
  · intro q2 hq2
    rw [hcdb] at hq2
    have hq2f := List.mem_filter.mp hq2
    intro hh
    have : is_dupe s.blockList q2 = true :=
      List.any_eq_true.mpr ⟨r, hr, beq_iff_eq.mpr (by rw [heq, hh])⟩
    rw [this] at hq2f
    cases hq2f.2
  · intro hcond
    rw [hcdb]
    show _ ∈ (s.blockQueue.filter (is_dupe s.blockList)).foldl applyDupe s.blockList
    rw [foldl_applyDupe_eq_map]
    have hstep : dupeStep r q =
        { r with reason := q.reason, reason_id := q.reason_id, session := q.session } := by
      unfold dupeStep
      rw [if_pos (by rw [beq_iff_eq.mpr heq, hcond]; rfl)]
    rw [← hstep, ← hrow]
    exact List.mem_map.mpr ⟨r, hr, rfl⟩
  · intro hcond
    rw [hcdb]
    show _ ∈ (s.blockQueue.filter (is_dupe s.blockList)).foldl applyDupe s.blockList
    rw [foldl_applyDupe_eq_map]
    have hstep : dupeStep r q = r := by
      unfold dupeStep
      rw [show (r.user_id == q.user_id && regUpdateCond r) = false from
        by rw [hcond]; simp]
      simp
    rw [show r = applyDupesRow (s.blockQueue.filter (is_dupe s.blockList)) r from
      by rw [hrow, hstep]]
    exact List.mem_map.mpr ⟨r, hr, rfl⟩
  · intro s2
    by_cases hie : (s2.blockQueue.filter (is_dupe s2.blockList)).isEmpty = true
    · constructor
      · intro hh
        exfalso
        unfold clean_duplicate_blocks at hh
        rw [if_pos hie] at hh
        cases hh
      · intro ⟨q3, hq3, hd3⟩
        exfalso
        rw [List.isEmpty_iff] at hie
        have : q3 ∈ s2.blockQueue.filter (is_dupe s2.blockList) :=
          List.mem_filter.mpr ⟨hq3, hd3⟩
        rw [hie] at this
        cases this
    · constructor
      · intro _
        rcases List.exists_mem_of_ne_nil _ (by
          intro hh
          rw [← List.isEmpty_iff] at hh
          exact hie hh) with ⟨q3, hq3⟩
        have hq3f := List.mem_filter.mp hq3
        exact ⟨q3, hq3f.1, hq3f.2⟩
      · intro _
        unfold clean_duplicate_blocks
        rw [if_neg hie]

def c10Store : Store := { emptyStore with
  blockQueue := [⟨5, 10, 2, some 9, some 4⟩],
  blockList := [⟨5, some 0, 0, none, none⟩] }

/-- C10 witness: an orphaned registry row with unknown reason is rewritten
from the queued duplicate, the duplicate queue row disappears, and the sweep
reports true. -/
theorem C10_maintenance_sweep_witness :
    (clean_duplicate_blocks c10Store).2 = true ∧
    (∀ q2 ∈ (clean_duplicate_blocks c10Store).1.blockQueue, q2.user_id ≠ 5) ∧
    (regUpdateCond ⟨5, some 0, 0, none, none⟩ = true →
      ((⟨5, some 0, 2, some 9, some 4⟩ : BlockListEntry) ∈
        (clean_duplicate_blocks c10Store).1.blockList)) ∧
    (regUpdateCond ⟨5, some 0, 0, none, none⟩ = false →
      ((⟨5, some 0, 0, none, none⟩ : BlockListEntry) ∈
        (clean_duplicate_blocks c10Store).1.blockList)) ∧
    (∀ s2 : Store, ((clean_duplicate_blocks s2).2 = true ↔
      ∃ q3 ∈ s2.blockQueue, is_dupe s2.blockList q3 = true)) :=
  C10_maintenance_sweep c10Store ⟨5, 10, 2, some 9, some 4⟩ ⟨5, some 0, 0, none, none⟩
    (by decide) (by decide) rfl (by decide)
